import Mathlib

/-!
Verification development for the db-hub-mcp database gateway core.

This file gives a shallow embedding, over `List Char`, of the SQL read-only
statement guard (`execute-sql` tool), the SQL row-cap rewriter
(`sql-row-limiter.ts`), the SSH tunnel session and connector manager
lifecycle (`ssh-tunnel.ts`, `manager.ts`), the SSH config resolver
(`ssh-config-parser.ts`) and the credential obfuscator (`dsn-obfuscator.ts`),
and proves or refutes the specification claims about them.

JavaScript strings are modelled as `List Char`; the ASCII fragments of the
relevant JS predicates (`\s`, `\d`, `\w`, `toLowerCase`) are modelled
exactly.  External collaborators (the filesystem, the ssh2 network library,
the ssh-config parsing library, the WHATWG URL object and the backend
drivers) are passed in as explicit oracle arguments, so every embedded
operation is a pure function of its inputs.
-/

/-! ## Character classes (JS `\s`, `\d`, `\w`, `toLowerCase`) -/

/-- JS whitespace (`\s`) restricted to its ASCII members: space, tab,
line feed, vertical tab, form feed, carriage return. -/
def jsSpace (c : Char) : Bool :=
  c = ' ' || c = '\t' || c = '\n' || c = '\x0b' || c = '\x0c' || c = '\r'

/-- JS word character (`\w`): ASCII letter, digit or underscore. -/
def isWordChar (c : Char) : Bool :=
  c.isAlphanum || c = '_'

/-- The decimal digit character for `d < 10`. -/
def digitChar (d : Nat) : Char := Char.ofNat (48 + d)

/-- Decimal digit characters of a natural, accumulator form; the first
argument is structural fuel (any value at least the input is enough,
since dividing by ten strictly shrinks a positive number). -/
def natDigitsGo : Nat → Nat → List Char → List Char
  | 0, _, acc => acc
  | fuel + 1, n, acc =>
    if n = 0 then acc else natDigitsGo fuel (n / 10) (digitChar (n % 10) :: acc)

/-- Decimal rendering of a natural number, as JS number-to-string. -/
def natDigits (n : Nat) : List Char :=
  if n = 0 then ['0'] else natDigitsGo n n []

/-- Decimal value of a digit string, as JS `parseInt(s, 10)` on a pure
digit string. -/
def parseDigits (ds : List Char) : Nat :=
  ds.foldl (fun a c => a * 10 + (c.toNat - 48)) 0

/-- Lower-case a string character-wise, as JS `toLowerCase` on ASCII. -/
def lowerList (l : List Char) : List Char := l.map Char.toLower

/-! ## Generic list-string utilities -/

/-- Split a list at every occurrence of a character, keeping empty
segments, as JS `String.prototype.split` with a one-character separator. -/
def splitOnChar (c : Char) : List Char → List (List Char)
  | [] => [[]]
  | a :: t =>
    if a = c then [] :: splitOnChar c t
    else
      match splitOnChar c t with
      | [] => [[a]]
      | h :: r => (a :: h) :: r

/-- Index of the first occurrence of `nd` as a contiguous sublist,
as JS `String.prototype.indexOf` with a string argument. -/
def idxOfSub (nd : List Char) : List Char → Option Nat
  | [] => if nd.isPrefixOf ([] : List Char) then some 0 else none
  | c :: t =>
    if nd.isPrefixOf (c :: t) then some 0
    else (idxOfSub nd t).map (· + 1)

/-- Split on every non-overlapping occurrence of a multi-character
separator, left to right, accumulator form; the first argument is
structural fuel (one more than the haystack length is always enough,
every found separator consuming at least one character). -/
def splitSubGo : Nat → List Char → List Char → List (List Char)
  | 0, _, hay => [hay]
  | fuel + 1, sep, hay =>
    match idxOfSub sep hay with
    | none => [hay]
    | some i => hay.take i :: splitSubGo fuel sep (hay.drop (i + sep.length))

/-- Split on a non-empty multi-character separator, as JS
`String.prototype.split`. -/
def splitSub (sep : List Char) (hay : List Char) : List (List Char) :=
  if sep.isEmpty then [hay] else splitSubGo (hay.length + 1) sep hay

/-- First index of a character, as JS `indexOf` with a one-character
argument. -/
def idxOfChar (c : Char) : List Char → Option Nat
  | [] => none
  | a :: t => if a = c then some 0 else (idxOfChar c t).map (· + 1)

/-- Last index of a character, as JS `lastIndexOf`. -/
def lastIdxOfChar (c : Char) (l : List Char) : Option Nat :=
  (idxOfChar c l.reverse).map (fun i => l.length - 1 - i)

/-- Trim leading and trailing JS whitespace, as `String.prototype.trim`. -/
def jsTrim (l : List Char) : List Char :=
  ((l.dropWhile jsSpace).reverse.dropWhile jsSpace).reverse

/-- The leading run of non-whitespace characters: for a trimmed non-empty
string this is `s.split(/\s+/)[0]`. -/
def firstWord (l : List Char) : List Char :=
  l.takeWhile (fun c => !jsSpace c)

/-- Case-insensitive prefix test: `pat` (given lower-case) ci-matches the
start of the text.  Models a case-insensitive literal in a JS regex. -/
def ciStarts : List Char → List Char → Bool
  | [], _ => true
  | _ :: _, [] => false
  | p :: ps, c :: cs => (Char.toLower c = p) && ciStarts ps cs

/-! ## Statement policy guard (`execute-sql.ts`) -/

/-- Remove a `--` line comment from a single line
(`line.indexOf('--')` and cut). -/
def cutLineComment (line : List Char) : List Char :=
  match idxOfSub ['-', '-'] line with
  | some i => line.take i
  | none => line

/-- Join lines back with a newline (`lines.join('\n')`). -/
def joinLines (ls : List (List Char)) : List Char :=
  List.intercalate ['\n'] ls

/-- Replace every (non-nesting, shortest-match) `/* ... */` block comment
with one space, as the global lazy regex replace in the source: each
match runs from a `/*` to the nearest following `*/`, and scanning
resumes after the replaced match. -/
def removeBlockGo : Nat → List Char → List Char
  | 0, l => l
  | fuel + 1, l =>
    match idxOfSub ['/', '*'] l with
    | none => l
    | some i =>
      match idxOfSub ['*', '/'] (l.drop (i + 2)) with
      | none => l
      | some j =>
        l.take i ++ [' '] ++ removeBlockGo fuel ((l.drop (i + 2)).drop (j + 2))

/-- Block comment removal on a whole string; the string's length is
enough fuel, each replaced match consuming at least four characters. -/
def removeBlockComments (l : List Char) : List Char :=
  removeBlockGo l.length l

/-- Source `stripSQLComments`: remove `--` line comments line by line, then
block comments, then trim. -/
def stripSQLComments (sql : List Char) : List Char :=
  jsTrim (removeBlockComments (joinLines ((splitOnChar '\n' sql).map cutLineComment)))

/-- Source `splitSQLStatements`: split the raw text on `;`, trim each fragment,
drop empty fragments. -/
def splitSQLStatements (sql : List Char) : List (List Char) :=
  ((splitOnChar ';' sql).map jsTrim).filter (fun s => !s.isEmpty)

/-- Source `isReadOnlySQL`: strip comments, lower-case; an all-comment statement
is read-only; otherwise the first whitespace-delimited token must be in
the allow-list. -/
def isReadOnlySQL (sql : List Char) (keywordList : List (List Char)) : Bool :=
  let cleanedSQL := lowerList (stripSQLComments sql)
  if cleanedSQL.isEmpty then true
  else keywordList.contains (firstWord cleanedSQL)

/-- Source `areAllStatementsReadOnly`: split the raw text into statements and
require every statement to pass `isReadOnlySQL`. -/
def areAllStatementsReadOnly (sql : List Char) (keywordList : List (List Char)) : Bool :=
  (splitSQLStatements sql).all (fun st => isReadOnlySQL st keywordList)

/-- Source `allowedKeywords[connectorType] || allowedKeywords.default || []`:
the dialect's allow-list if registered, else the generic one, else empty.
The concrete keyword table lives in `allowed-keywords.ts`, outside the
embedded core, so both lookups are parameters. -/
def lookupAllowedKeywords (tbl dflt : Option (List (List Char))) : List (List Char) :=
  match tbl with
  | some k => k
  | none =>
    match dflt with
    | some k => k
    | none => []

/-- Modelled from the spec: the Statement Policy Guard procedure as §4.4
describes it — strip line and block comments from the WHOLE text first,
only then split the cleaned text on `;`, discard empty fragments, and
test each remaining statement's first lower-cased token against the
allow-list.  (The source instead splits the raw text first; this
definition exists to compare the two pipelines.) -/
def areAllStatementsReadOnlySpec (sql : List Char) (keywordList : List (List Char)) : Bool :=
  (((splitOnChar ';' (stripSQLComments sql)).map jsTrim).filter (fun s => !s.isEmpty)).all
    (fun st => keywordList.contains (firstWord (lowerList st)))

/-! ## Row cap rewriter (`sql-row-limiter.ts`)

The three regexes of the source, `/\blimit\s+\d+/i`,
`/\bselect\s+top\s+\d+/i` and `/\bselect\s+/i`, are deterministic
word-boundary-anchored patterns: a literal word, then greedy runs of
whitespace / digits.  Each is modelled by an anchored matcher returning
the match length (and, where the pattern ends in `\d+`, the numeric value
of the digit run), plus a leftmost-match scanner `findFrom` shared by
`test`, `match` and `replace`. -/

/-- JS word boundary `\b` before a match position, given the previous
character (`none` at the start of the string); all our patterns start
with a word character, so the boundary holds iff the previous character
is not a word character. -/
def wordBoundary (prev : Option Char) : Bool :=
  match prev with
  | none => true
  | some c => !isWordChar c

/-- Anchored matcher for `limit\s+\d+` (case-insensitive): returns
(match length, numeric value of the digit run). -/
def matchLimitAt (l : List Char) : Option (Nat × Nat) :=
  if ciStarts ['l', 'i', 'm', 'i', 't'] l then
    let r1 := l.drop 5
    let sp := r1.takeWhile jsSpace
    if sp.isEmpty then none
    else
      let r2 := r1.drop sp.length
      let ds := r2.takeWhile Char.isDigit
      if ds.isEmpty then none
      else some (5 + sp.length + ds.length, parseDigits ds)
  else none

/-- Anchored matcher for `select\s+top\s+\d+` (case-insensitive). -/
def matchTopAt (l : List Char) : Option (Nat × Nat) :=
  if ciStarts ['s', 'e', 'l', 'e', 'c', 't'] l then
    let r1 := l.drop 6
    let sp1 := r1.takeWhile jsSpace
    if sp1.isEmpty then none
    else
      let r2 := r1.drop sp1.length
      if ciStarts ['t', 'o', 'p'] r2 then
        let r3 := r2.drop 3
        let sp2 := r3.takeWhile jsSpace
        if sp2.isEmpty then none
        else
          let r4 := r3.drop sp2.length
          let ds := r4.takeWhile Char.isDigit
          if ds.isEmpty then none
          else some (6 + sp1.length + 3 + sp2.length + ds.length, parseDigits ds)
      else none
  else none

/-- Anchored matcher for `select\s+` (case-insensitive): match length
only. -/
def matchSelAt (l : List Char) : Option Nat :=
  if ciStarts ['s', 'e', 'l', 'e', 'c', 't'] l then
    let sp := (l.drop 6).takeWhile jsSpace
    if sp.isEmpty then none else some (6 + sp.length)
  else none

/-- Leftmost-match scan: try the anchored matcher at each position whose
word boundary holds; `prev` is the character before the current suffix. -/
def findFrom (f : List Char → Option α) : Option Char → List Char → Option (Nat × α)
  | _, [] => none
  | prev, c :: cs =>
    match (if wordBoundary prev then f (c :: cs) else none) with
    | some a => some (0, a)
    | none => (findFrom f (some c) cs).map (fun p => (p.1 + 1, p.2))

/-- Leftmost match of an anchored matcher in a whole string. -/
def findPat (f : List Char → Option α) (l : List Char) : Option (Nat × α) :=
  findFrom f none l

/-- The character preceding the position right after `l`, when the scan
started with preceding character `prev`. -/
def prevAfter (prev : Option Char) (l : List Char) : Option Char :=
  match l.getLast? with
  | some c => some c
  | none => prev

/-- The scan finds nothing inside `P` when scanning `P ++ R` with
preceding character `prev`: at every split of `P` whose word boundary
holds, the anchored matcher fails. -/
def scanNone (f : List Char → Option α) (prev : Option Char) (P R : List Char) : Prop :=
  ∀ P1 c P2, P = P1 ++ c :: P2 → wordBoundary (prevAfter prev P1) = true →
    f (c :: (P2 ++ R)) = none

/-- Source `extractLimitValue`: value of the first `\blimit\s+(\d+)/i` match. -/
def extractLimitValue (sql : List Char) : Option Nat :=
  (findPat matchLimitAt sql).map (fun p => p.2.2)

/-- Source `extractTopValue`: value of the first `\bselect\s+top\s+(\d+)/i`
match. -/
def extractTopValue (sql : List Char) : Option Nat :=
  (findPat matchTopAt sql).map (fun p => p.2.2)

/-- Source `hasLimitClause`: `/\blimit\s+\d+/i.test(sql)`. -/
def hasLimitClause (sql : List Char) : Bool :=
  (findPat matchLimitAt sql).isSome

/-- Source `hasTopClause`: `/\bselect\s+top\s+\d+/i.test(sql)`. -/
def hasTopClause (sql : List Char) : Bool :=
  (findPat matchTopAt sql).isSome

/-- Source `sql.replace(/\blimit\s+\d+/i, repl)`: replace the first match. -/
def replaceLimit (sql : List Char) (repl : List Char) : List Char :=
  match findPat matchLimitAt sql with
  | some (i, k, _) => sql.take i ++ repl ++ sql.drop (i + k)
  | none => sql

/-- Source `sql.replace(/\bselect\s+top\s+\d+/i, repl)`. -/
def replaceTop (sql : List Char) (repl : List Char) : List Char :=
  match findPat matchTopAt sql with
  | some (i, k, _) => sql.take i ++ repl ++ sql.drop (i + k)
  | none => sql

/-- Source `sql.replace(/\bselect\s+/i, repl)`. -/
def replaceSel (sql : List Char) (repl : List Char) : List Char :=
  match findPat matchSelAt sql with
  | some (i, k) => sql.take i ++ repl ++ sql.drop (i + k)
  | none => sql

/-- Source `isSelectQuery`: the trimmed, lower-cased text starts with
`select`. -/
def isSelectQuery (sql : List Char) : Bool :=
  ciStarts ['s', 'e', 'l', 'e', 'c', 't'] (jsTrim sql)

/-- Source `applyLimitToQuery`: replace an existing LIMIT cap with the minimum
of the existing and requested caps, else append `LIMIT maxRows` at the
end, keeping a trailing semicolon last. -/
def applyLimitToQuery (sql : List Char) (maxRows : Nat) : List Char :=
  match extractLimitValue sql with
  | some existingLimit =>
    replaceLimit sql (['L', 'I', 'M', 'I', 'T', ' '] ++ natDigits (min existingLimit maxRows))
  | none =>
    let trimmed := jsTrim sql
    let hasSemicolon := trimmed.getLast? = some ';'
    let sqlWithoutSemicolon := if hasSemicolon then trimmed.dropLast else trimmed
    sqlWithoutSemicolon ++ [' ', 'L', 'I', 'M', 'I', 'T', ' '] ++ natDigits maxRows ++
      (if hasSemicolon then [';'] else [])

/-- Source `applyTopToQuery`: replace an existing `SELECT TOP` cap with the
minimum of existing and requested, else insert `TOP maxRows` after the
first `select`. -/
def applyTopToQuery (sql : List Char) (maxRows : Nat) : List Char :=
  match extractTopValue sql with
  | some existingTop =>
    replaceTop sql (['S', 'E', 'L', 'E', 'C', 'T', ' ', 'T', 'O', 'P', ' '] ++
      natDigits (min existingTop maxRows))
  | none =>
    replaceSel sql (['S', 'E', 'L', 'E', 'C', 'T', ' ', 'T', 'O', 'P', ' '] ++
      natDigits maxRows ++ [' '])

/-- JS falsiness of the optional `maxRows : number | undefined`
argument: `undefined` and `0` are falsy. -/
def isFalsyNat : Option Nat → Bool
  | none => true
  | some 0 => true
  | some (_ + 1) => false

/-- Source `applyMaxRows`: no-op unless `maxRows` is truthy and the statement is
a SELECT. -/
def applyMaxRows (sql : List Char) (maxRows : Option Nat) : List Char :=
  if isFalsyNat maxRows || !isSelectQuery sql then sql
  else applyLimitToQuery sql (maxRows.getD 0)

/-- Source `applyMaxRowsForSQLServer`: the TOP-strategy variant of
`applyMaxRows`. -/
def applyMaxRowsForSQLServer (sql : List Char) (maxRows : Option Nat) : List Char :=
  if isFalsyNat maxRows || !isSelectQuery sql then sql
  else applyTopToQuery sql (maxRows.getD 0)

/-- JS falsiness of an optional string: absent or empty. -/
def jsFalsyStr : Option String → Bool
  | none => true
  | some s => s.isEmpty

/-! ## SSH tunnel session (`ssh-tunnel.ts`)

The `SSHTunnel` object's four fields are modelled directly; `ssh2`
`Client` and `net` `Server` objects are tracked as allocation flags.  The
asynchronous events that decide a call of `establish` (connection error
vs ready; local listener bound / address failure / server error) are
supplied as oracle arguments.  Each modelled method returns the updated
object state together with its promise outcome. -/

/-- The resolved tunnel endpoint information (`SSHTunnelInfo`). -/
structure SSHTunnelInfo where
  localPort : Nat
  targetHost : String
  targetPort : Nat
deriving DecidableEq, Repr

/-- Bastion connection configuration (`SSHTunnelConfig`). -/
structure SSHTunnelConfig where
  host : String
  port : Option Nat := none
  username : String
  password : Option String := none
  privateKey : Option String := none
  passphrase : Option String := none
deriving DecidableEq, Repr

/-- Tunnel request (`SSHTunnelOptions`). -/
structure SSHTunnelOptions where
  targetHost : String
  targetPort : Nat
  localPort : Option Nat := none
deriving DecidableEq, Repr

/-- The four instance fields of an `SSHTunnel` object; `sshClient` and
`localServer` record whether the corresponding JS object is currently
allocated. -/
structure SSHTunnelState where
  sshClient : Bool := false
  localServer : Bool := false
  tunnelInfo : Option SSHTunnelInfo := none
  isConnected : Bool := false
deriving DecidableEq, Repr

/-- Source `cleanup()`: close and null the local server and ssh client, null
the tunnel info.  It does not touch `isConnected`. -/
def sshCleanup (st : SSHTunnelState) : SSHTunnelState :=
  { st with localServer := false, sshClient := false, tunnelInfo := none }

/-- Outcome of `localServer.listen` on the loopback interface. -/
inductive ListenOutcome where
  | bound (port : Nat)
  | addrFail
  | serverError
deriving DecidableEq, Repr

/-- Which ssh2 client event settles the establish promise. -/
inductive SSHNetEvent where
  | connectError
  | ready (lo : ListenOutcome)
deriving DecidableEq, Repr

/-- The part of `establish` from `sshClient.connect(...)` onward: the
error event cleans up and rejects; the ready event creates the local
server, and the listen outcome either activates the tunnel or cleans up
and rejects. -/
def establishNet (st1 : SSHTunnelState) (options : SSHTunnelOptions)
    (ev : SSHNetEvent) : SSHTunnelState × Except String SSHTunnelInfo :=
  match ev with
  | .connectError => (sshCleanup st1, .error ("SSH connection error"))
  | .ready lo =>
    let st2 := { st1 with localServer := true }
    match lo with
    | .bound p =>
      let info : SSHTunnelInfo :=
        { localPort := p, targetHost := options.targetHost, targetPort := options.targetPort }
      ({ st2 with tunnelInfo := some info, isConnected := true }, .ok info)
    | .addrFail => (sshCleanup st2, .error ("Failed to get local server address"))
    | .serverError => (sshCleanup st2, .error ("Local server error"))

/-- Source `SSHTunnel.establish(config, options)`.  `readKeyOk` is the
filesystem oracle for `readFileSync(config.privateKey)`; `ev` is the
network oracle.  Mirrors the source: reject immediately if already
connected; allocate the client; password wins over private key; a
missing auth method or unreadable key file rejects before any network
activity. -/
def sshEstablish (st : SSHTunnelState) (config : SSHTunnelConfig)
    (options : SSHTunnelOptions) (readKeyOk : Bool) (ev : SSHNetEvent) :
    SSHTunnelState × Except String SSHTunnelInfo :=
  if st.isConnected then (st, .error ("SSH tunnel is already established"))
  else
    let st1 := { st with sshClient := true }
    if !jsFalsyStr config.password then establishNet st1 options ev
    else if !jsFalsyStr config.privateKey then
      if readKeyOk then establishNet st1 options ev
      else (st1, .error ("Failed to read private key file"))
    else
      (st1, .error ("Either password or privateKey must be provided for SSH authentication"))

/-- Source `SSHTunnel.close()`: a no-op on a non-connected session; otherwise
clean up and clear the connected flag.  Never rejects. -/
def sshClose (st : SSHTunnelState) : SSHTunnelState × Except String Unit :=
  if !st.isConnected then (st, .ok ())
  else ({ sshCleanup st with isConnected := false }, .ok ())

/-- Source `getTunnelInfo()`. -/
def getTunnelInfo (st : SSHTunnelState) : Option SSHTunnelInfo := st.tunnelInfo

/-- Source `getIsConnected()`. -/
def getIsConnected (st : SSHTunnelState) : Bool := st.isConnected

/-- The object state of an `SSHTunnel` on which `establish` has started
(the client was allocated synchronously) but no event has settled the
promise yet: the Establishing state of the spec's session lifecycle. -/
def establishingState : SSHTunnelState :=
  { sshClient := true, localServer := false, tunnelInfo := none, isConnected := false }

/-! ## Connection orchestrator (`manager.ts`) -/

/-- The four instance fields of `ConnectorManager`; the active connector
is tracked by an abstract identifier, and the embedded tunnel object by
its `SSHTunnelState`. -/
structure ManagerState where
  activeConnector : Option Nat := none
  connected : Bool := false
  sshTunnel : Option SSHTunnelState := none
  originalDSN : Option String := none
deriving DecidableEq, Repr

/-- Source `getDefaultPort`: static scheme-to-port table keyed by DSN prefix. -/
def getDefaultPort (dsn : String) : Nat :=
  if dsn.startsWith ("postgres://") || dsn.startsWith ("postgresql://") then 5432
  else if dsn.startsWith ("mysql://") then 3306
  else if dsn.startsWith ("mariadb://") then 3306
  else if dsn.startsWith ("sqlserver://") then 1433
  else 0

/-- The tail of `connectWithDSN` after the optional tunnel step: resolve
the (possibly rewritten) DSN against the registry, store the connector,
delegate `connect` (outcome supplied by the backend oracle), and mark
connected on success.  No failure path touches the tunnel. -/
def connectResolveAndConnect (st : ManagerState) (actualDSN : String)
    (registry : String → Option Nat) (connectOutcome : Except String Unit) :
    ManagerState × Except String Unit :=
  match registry actualDSN with
  | none => (st, .error ("No connector found that can handle the DSN: " ++ actualDSN))
  | some cid =>
    let st2 := { st with activeConnector := some cid }
    match connectOutcome with
    | .error e => (st2, .error e)
    | .ok _ => ({ st2 with connected := true }, .ok ())

/-- Source `ConnectorManager.connectWithDSN(dsn)`.  Oracles: `sshConfig` is the
`resolveSSHConfig()` result; `parsedHost`/`parsedPort` the URL parse of
the DSN; `readKeyOk`/`ev` drive the embedded `sshEstablish`;
`rewriteDSN` is the URL serialization with host `127.0.0.1` and the
local tunnel port; `registry` and `connectOutcome` the registry and
backend driver.  Mirrors the source: the original DSN is stored first, a
fresh tunnel object is assigned to `this.sshTunnel` before `establish`,
and every error simply propagates with the state as it stands. -/
def connectWithDSN (st : ManagerState) (dsn : String)
    (sshConfig : Option SSHTunnelConfig) (parsedHost : String) (parsedPort : Option Nat)
    (readKeyOk : Bool) (ev : SSHNetEvent) (rewriteDSN : Nat → String)
    (registry : String → Option Nat) (connectOutcome : Except String Unit) :
    ManagerState × Except String Unit :=
  let st0 := { st with originalDSN := some dsn }
  match sshConfig with
  | none => connectResolveAndConnect st0 dsn registry connectOutcome
  | some cfg =>
    let targetPort := parsedPort.getD (getDefaultPort dsn)
    let tunnel0 : SSHTunnelState := {}
    let st1 := { st0 with sshTunnel := some tunnel0 }
    match sshEstablish tunnel0 cfg
        { targetHost := parsedHost, targetPort := targetPort } readKeyOk ev with
    | (tSt, .error e) => ({ st1 with sshTunnel := some tSt }, .error e)
    | (tSt, .ok info) =>
      connectResolveAndConnect { st1 with sshTunnel := some tSt }
        (rewriteDSN info.localPort) registry connectOutcome

/-- Source `ConnectorManager.disconnect()`.  `backendOutcome` is the backend
driver's disconnect result.  Mirrors the source: if a connector is
active and connected, await its disconnect — a rejection propagates at
once, skipping everything after it; otherwise clear the connected flag,
then close and null the tunnel if present, then clear the stored DSN. -/
def managerDisconnect (st : ManagerState) (backendOutcome : Except String Unit) :
    ManagerState × Except String Unit :=
  if st.activeConnector.isSome && st.connected then
    match backendOutcome with
    | .error e => (st, .error e)
    | .ok _ =>
      let st1 := { st with connected := false }
      let st2 := if st1.sshTunnel.isSome then { st1 with sshTunnel := none } else st1
      ({ st2 with originalDSN := none }, .ok ())
  else
    let st2 := if st.sshTunnel.isSome then { st with sshTunnel := none } else st
    ({ st2 with originalDSN := none }, .ok ())

/-- Whether the manager currently references a live (active) tunnel. -/
def managerTunnelActive (st : ManagerState) : Bool :=
  match st.sshTunnel with
  | some t => t.isConnected
  | none => false

/-! ## Bastion config resolver (`ssh-config-parser.ts`)

The `ssh-config` library's `parse`/`compute` is an external collaborator:
its merged result for the queried alias is an oracle input.  The
filesystem is the oracle `fs : String → Bool` (existence of a path), and
the home directory a parameter. -/

/-- Source `expandTilde`: replace a leading `~/` by the home directory
(`path.join` inserts a slash). -/
def expandTilde (home : String) (filePath : String) : String :=
  if filePath.toList.take 2 = ['~', '/'] then home ++ String.mk ('/' :: filePath.toList.drop 2)
  else filePath

/-- Source `fileExists`: existence of the tilde-expanded path. -/
def fileExistsM (fs : String → Bool) (home : String) (filePath : String) : Bool :=
  fs (expandTilde home filePath)

/-- Source `DEFAULT_SSH_KEYS`. -/
def DEFAULT_SSH_KEYS : List String :=
  ["~/.ssh/id_rsa", "~/.ssh/id_ed25519", "~/.ssh/id_ecdsa", "~/.ssh/id_dsa"]

/-- Source `findDefaultSSHKey`: first default key path whose file exists,
tilde-expanded. -/
def findDefaultSSHKey (fs : String → Bool) (home : String) : Option String :=
  (DEFAULT_SSH_KEYS.find? (fun p => fileExistsM fs home p)).map (expandTilde home)

/-- The merged per-alias result of the external ssh-config library's
`compute`: each directive is absent or a string; `IdentityFile` may be a
single value or an array (here always a list, a singleton for a single
value). -/
structure HostConfigMerged where
  HostName : Option String := none
  Port : Option String := none
  User : Option String := none
  IdentityFile : Option (List String) := none
  ProxyJump : Option String := none
  ProxyCommand : Option String := none
deriving DecidableEq, Repr

/-- JS `parseInt(s, 10)` restricted to leading-whitespace-then-digits
inputs (none on NaN). -/
def jsParseInt (s : String) : Option Nat :=
  let ds := (s.toList.dropWhile jsSpace).takeWhile Char.isDigit
  if ds.isEmpty then none else some (parseDigits ds)

/-- Source `parseSSHConfig(hostAlias, configPath)` given the oracles:
`configExists` for `existsSync(configPath)`, `hostConfig` for the
library parse+compute result (`none` when the parse throws or computes
nothing).  Mirrors the source: reject a merged result with neither
HostName nor User; host falls back to the alias; only the FIRST
IdentityFile entry is considered, and kept only if its expanded path
exists; otherwise the default key locations are tried; finally host and
username must both be truthy.  (An empty `IdentityFile` array would make
the source throw on `undefined` and return null via its catch.) -/
def parseSSHConfig (hostAlias : String) (configExists : Bool)
    (hostConfig : Option HostConfigMerged) (fs : String → Bool) (home : String) :
    Option SSHTunnelConfig :=
  if !configExists then none
  else
    match hostConfig with
    | none => none
    | some hc =>
      if jsFalsyStr hc.HostName && jsFalsyStr hc.User then none
      else if hc.IdentityFile = some [] then none
      else
        let host := if jsFalsyStr hc.HostName then hostAlias else hc.HostName.getD ("")
        let port := if jsFalsyStr hc.Port then none else jsParseInt (hc.Port.getD (""))
        let username := if jsFalsyStr hc.User then none else hc.User
        let keyFromDirective : Option String :=
          match hc.IdentityFile with
          | some (idf :: _) =>
            let expandedPath := expandTilde home idf
            if fileExistsM fs home expandedPath then some expandedPath else none
          | _ => none
        let privateKey :=
          match keyFromDirective with
          | some k => some k
          | none => findDefaultSSHKey fs home
        if host.isEmpty || username.isNone || username = some ("") then none
        else
          some { host := host, port := port, username := username.getD (""),
                 password := none, privateKey := privateKey, passphrase := none }

/-! ## Credential obfuscation (`dsn-obfuscator.ts`) -/

/-- Source `obfuscateDSNPassword(dsn)`: find the scheme via `/^([^:]+):/`, pass
sqlite DSNs through, locate the credentials between the first `://` and
the last `@`, and replace the password (after the first `:` of the
credentials) by at most eight asterisks. -/
def obfuscateDSNPassword (dsn : List Char) : List Char :=
  if dsn.isEmpty then dsn
  else
    let protocol := dsn.takeWhile (fun c => c ≠ ':')
    if protocol.isEmpty || protocol.length = dsn.length then dsn
    else if protocol = ['s', 'q', 'l', 'i', 't', 'e'] then dsn
    else
      match (splitSub [':', '/', '/'] dsn).get? 1 with
      | none => dsn
      | some protocolPart =>
        if protocolPart.isEmpty then dsn
        else
          match lastIdxOfChar '@' protocolPart with
          | none => dsn
          | some lastAtIndex =>
            let credentialsPart := protocolPart.take lastAtIndex
            let hostPart := protocolPart.drop (lastAtIndex + 1)
            match idxOfChar ':' credentialsPart with
            | none => dsn
            | some colonIndex =>
              let username := credentialsPart.take colonIndex
              let password := credentialsPart.drop (colonIndex + 1)
              let obfuscatedPassword := List.replicate (min password.length 8) '*'
              protocol ++ [':', '/', '/'] ++ username ++ [':'] ++ obfuscatedPassword ++
                ['@'] ++ hostPart

/-- Source `obfuscateSSHConfig(config)`: copy host, port and username; mask a
truthy password or passphrase with exactly eight asterisks; keep a
truthy private key path as-is (absent fields stay absent). -/
def obfuscateSSHConfig (config : SSHTunnelConfig) : SSHTunnelConfig :=
  { host := config.host
    port := config.port
    username := config.username
    password :=
      match config.password with
      | some s => if s.isEmpty then none else some ("********")
      | none => none
    privateKey :=
      match config.privateKey with
      | some s => if s.isEmpty then none else some s
      | none => none
    passphrase :=
      match config.passphrase with
      | some s => if s.isEmpty then none else some ("********")
      | none => none }

/-! # Theorems -/

/-! ## Claim C10: a zero row cap disables rewriting -/

/-- C10: for every SQL text, calling `applyMaxRows` or
`applyMaxRowsForSQLServer` with a requested cap of 0 returns the input
unchanged — a zero cap is treated exactly like an unset (`undefined`)
cap and disables rewriting entirely. -/
theorem applyMaxRows_zero_is_identity (sql : List Char) :
    applyMaxRows sql (some 0) = sql ∧ applyMaxRowsForSQLServer sql (some 0) = sql ∧
    applyMaxRows sql none = sql ∧ applyMaxRowsForSQLServer sql none = sql := by
  refine ⟨?_, ?_, ?_, ?_⟩ <;> simp [applyMaxRows, applyMaxRowsForSQLServer, isFalsyNat]

/-! ## Claim C1: the read-only batch guard characterization -/

/-- Helper: `isReadOnlySQL` accepts a statement iff it is empty after
comment stripping or its first lower-cased token is allow-listed. -/
theorem isReadOnlySQL_eq_true_iff (sql : List Char) (kw : List (List Char)) :
    isReadOnlySQL sql kw = true ↔
      (stripSQLComments sql ≠ [] →
        kw.contains (firstWord (lowerList (stripSQLComments sql))) = true) := by
  unfold isReadOnlySQL
  by_cases hs : stripSQLComments sql = []
  · simp [hs, lowerList]
  · have h1 : (lowerList (stripSQLComments sql)).isEmpty = false := by
      simp [lowerList, List.isEmpty_iff, hs]
    simp [h1, hs]

/-- C1: for every SQL text and dialect allow-list lookup (dialect list,
falling back to the generic list when the dialect has none registered),
the batch guard permits the text iff every semicolon-separated statement
that is non-empty after comment removal has its first
whitespace-delimited, lower-cased token in the allow-list; in
particular a batch that is empty after comment removal is vacuously
permitted. -/
theorem readonly_batch_permitted_iff (sql : List Char)
    (tbl dflt : Option (List (List Char))) :
    areAllStatementsReadOnly sql (lookupAllowedKeywords tbl dflt) = true ↔
      ∀ st ∈ splitSQLStatements sql, stripSQLComments st ≠ [] →
        (lookupAllowedKeywords tbl dflt).contains
          (firstWord (lowerList (stripSQLComments st))) = true := by
  unfold areAllStatementsReadOnly
  rw [List.all_eq_true]
  constructor
  · intro h st hst
    exact (isReadOnlySQL_eq_true_iff st _).mp (h st hst)
  · intro h st hst
    exact (isReadOnlySQL_eq_true_iff st _).mpr (h st hst)

/-- C1 witness: a concrete batch with an all-comment fragment and a
SELECT fragment is permitted under the allow-list containing only
`select`, by the characterization. -/
theorem readonly_batch_permitted_witness :
    areAllStatementsReadOnly (("SELECT a FROM t; -- note").toList)
      (lookupAllowedKeywords (some [("select").toList]) none) = true :=
  (readonly_batch_permitted_iff (("SELECT a FROM t; -- note").toList)
      (some [("select").toList]) none).mpr (by decide)

/-! ## Claim C3: comment stripping happens per fragment, after splitting -/

/-- C3 counterexample: on `SELECT 1 /* ; DROP x */` the guard splits at
the semicolon inside the block comment and rejects the batch, while the
spec's strip-then-split pipeline accepts it; the raw split really
produces two statements. -/
theorem guard_semicolon_in_comment_splits :
    areAllStatementsReadOnly (("SELECT 1 /* ; DROP x */").toList) [("select").toList] = false ∧
    areAllStatementsReadOnlySpec (("SELECT 1 /* ; DROP x */").toList) [("select").toList] = true ∧
    splitSQLStatements (("SELECT 1 /* ; DROP x */").toList) =
      [("SELECT 1 /*").toList, ("DROP x */").toList] := by
  refine ⟨by decide, by decide, by decide⟩

/-- C3 amended: the guard splits the RAW text on every `;` first
(so a semicolon inside a comment does produce a statement boundary) and
only then strips comments within each fragment: the batch decision
equals scanning every trimmed raw fragment and accepting it when it is
empty or `isReadOnlySQL` accepts it. -/
theorem guard_strips_after_split (sql : List Char) (kw : List (List Char)) :
    areAllStatementsReadOnly sql kw =
      ((splitOnChar ';' sql).map jsTrim).all (fun st => st.isEmpty || isReadOnlySQL st kw) := by
  unfold areAllStatementsReadOnly splitSQLStatements
  induction ((splitOnChar ';' sql).map jsTrim) with
  | nil => rfl
  | cons h t ih =>
    by_cases hh : h.isEmpty = true
    · have hnil : h = [] := by simpa [List.isEmpty_iff] using hh
      subst hnil
      simpa [List.filter_cons] using ih
    · have hf : h.isEmpty = false := by
        simpa using hh
      simp [List.filter_cons, hf, ih]

/-! ## Claim C7: establish/close guards of the tunnel session -/

/-- Helper: a successful `establish` leaves the tunnel object
connected. -/
theorem sshEstablish_ok_isConnected {st tSt : SSHTunnelState} {cfg : SSHTunnelConfig}
    {opts : SSHTunnelOptions} {rk : Bool} {ev : SSHNetEvent} {info : SSHTunnelInfo}
    (h : sshEstablish st cfg opts rk ev = (tSt, .ok info)) : tSt.isConnected = true := by
  unfold sshEstablish establishNet at h
  by_cases hc : st.isConnected = true
  · simp [hc] at h
  · simp only [Bool.not_eq_true] at hc
    cases ev with
    | connectError => simp [hc] at h <;> split_ifs at h <;> simp_all
    | ready lo =>
      cases lo with
      | bound p =>
        simp [hc] at h
        split_ifs at h <;> simp_all <;> exact (congrArg SSHTunnelState.isConnected h.1.symm)
      | addrFail => simp [hc] at h <;> split_ifs at h <;> simp_all
      | serverError => simp [hc] at h <;> split_ifs at h <;> simp_all

/-- C7 counterexample: a session in the Establishing state (ssh client
allocated, not yet connected) does NOT make a second `establish` fail
immediately — with a successful network oracle the second call proceeds
to establish a tunnel, contradicting the claim that establish fails on
an Establishing session. -/
theorem establish_unguarded_while_establishing :
    (sshEstablish establishingState
        { host := "bastion", username := "user", password := some ("pw") }
        { targetHost := "db", targetPort := 5432 } true (.ready (.bound 5433))).2 =
      .ok { localPort := 5433, targetHost := "db", targetPort := 5432 } ∧
    establishingState.sshClient = true ∧ establishingState.isConnected = false := by
  refine ⟨rfl, rfl, rfl⟩

/-- C7 amended: `establish` fails immediately — with no network oracle
consulted and the state (hence any TunnelHandle) unaltered — exactly
when the session is Active (`isConnected`); there is no Establishing
guard.  `close` on any non-Active session (Idle, Closed, or
Establishing) is a no-op that resolves successfully. -/
theorem establish_guard_iff_active_and_close_noop :
    (∀ (st : SSHTunnelState) (cfg : SSHTunnelConfig) (opts : SSHTunnelOptions)
      (rk : Bool) (ev : SSHNetEvent), st.isConnected = true →
        sshEstablish st cfg opts rk ev = (st, .error ("SSH tunnel is already established"))) ∧
    (∀ st : SSHTunnelState, st.isConnected = false → sshClose st = (st, .ok ())) := by
  constructor
  · intro st cfg opts rk ev h
    simp [sshEstablish, h]
  · intro st h
    simp [sshClose, h]

/-- C7 amended witness: concrete instances of both conjuncts. -/
theorem establish_guard_witness :
    sshEstablish
      (SSHTunnelState.mk true true (some (SSHTunnelInfo.mk 5433 ("db") 5432)) true)
      { host := "b", username := "u", password := some ("p") }
      { targetHost := "db", targetPort := 5432 } true .connectError =
      (SSHTunnelState.mk true true (some (SSHTunnelInfo.mk 5433 ("db") 5432)) true,
        .error ("SSH tunnel is already established")) ∧
    sshClose ({} : SSHTunnelState) = (({} : SSHTunnelState), .ok ()) :=
  ⟨establish_guard_iff_active_and_close_noop.1 _ _ _ true .connectError rfl,
   establish_guard_iff_active_and_close_noop.2 _ rfl⟩

/-! ## Claim C2: no tunnel teardown on backend connect failure -/

/-- C2 counterexample: with a tunnel successfully established and the
backend connect failing, `connectWithDSN` surfaces the connect error
while the manager still references a live tunnel — the tunnel is NOT
torn down before the error is surfaced. -/
theorem connect_failure_dangling_tunnel :
    connectWithDSN ({} : ManagerState) ("postgres://u:p@db:5432/app")
        (some { host := "bastion", username := "u", password := some ("pw") })
        ("db") (some 5432) true (.ready (.bound 15432))
        (fun p => ("postgres://u:p@127.0.0.1:") ++ toString p ++ ("/app"))
        (fun _ => some 7) (.error ("connection refused")) =
      (ManagerState.mk (some 7) false
          (some (SSHTunnelState.mk true true (some (SSHTunnelInfo.mk 15432 ("db") 5432)) true))
          (some ("postgres://u:p@db:5432/app")),
        .error ("connection refused")) ∧
    managerTunnelActive
      (ManagerState.mk (some 7) false
        (some (SSHTunnelState.mk true true (some (SSHTunnelInfo.mk 15432 ("db") 5432)) true))
        (some ("postgres://u:p@db:5432/app"))) = true := ⟨rfl, rfl⟩

/-- C2 amended: when a tunnel was established during the attempt and the
backend connect (or a later step) fails, the error propagates while the
established tunnel stays referenced and active in the manager state; no
teardown happens during the connect attempt (only a later
`disconnect()` closes it). -/
theorem connect_backend_failure_keeps_tunnel (st : ManagerState) (dsn : String)
    (cfg : SSHTunnelConfig) (host : String) (pport : Option Nat) (rk : Bool)
    (ev : SSHNetEvent) (rw : Nat → String) (reg : String → Option Nat)
    (e : String) (tSt : SSHTunnelState) (info : SSHTunnelInfo) (cid : Nat)
    (hest : sshEstablish ({} : SSHTunnelState) cfg
      { targetHost := host, targetPort := pport.getD (getDefaultPort dsn) } rk ev =
        (tSt, .ok info))
    (hreg : reg (rw info.localPort) = some cid) :
    connectWithDSN st dsn (some cfg) host pport rk ev rw reg (.error e) =
      (ManagerState.mk (some cid) st.connected (some tSt) (some dsn), .error e) ∧
    tSt.isConnected = true := by
  refine ⟨?_, sshEstablish_ok_isConnected hest⟩
  unfold connectWithDSN
  dsimp only
  rw [hest]
  dsimp only
  unfold connectResolveAndConnect
  rw [hreg]

/-- C2 amended witness: the concrete failing-connect run, by the amended
theorem. -/
theorem connect_backend_failure_witness :
    connectWithDSN ({} : ManagerState) ("postgres://u:p@db:5432/app")
        (some { host := "bastion", username := "u", password := some ("pw") })
        ("db") (some 5432) true (.ready (.bound 15432))
        (fun _ => ("postgres://u:p@127.0.0.1:15432/app"))
        (fun _ => some 7) (.error ("connection refused")) =
      (ManagerState.mk (some 7) false
          (some (SSHTunnelState.mk true true (some (SSHTunnelInfo.mk 15432 ("db") 5432)) true))
          (some ("postgres://u:p@db:5432/app")),
        .error ("connection refused")) ∧
    SSHTunnelState.isConnected
      (SSHTunnelState.mk true true (some (SSHTunnelInfo.mk 15432 ("db") 5432)) true) = true :=
  connect_backend_failure_keeps_tunnel ({} : ManagerState) ("postgres://u:p@db:5432/app")
    { host := "bastion", username := "u", password := some ("pw") }
    ("db") (some 5432) true (.ready (.bound 15432))
    (fun _ => ("postgres://u:p@127.0.0.1:15432/app")) (fun _ => some 7)
    ("connection refused")
    (SSHTunnelState.mk true true (some (SSHTunnelInfo.mk 15432 ("db") 5432)) true)
    (SSHTunnelInfo.mk 15432 ("db") 5432) 7 (by rfl) (by rfl)

/-! ## Claim C6: disconnect is not failure-proof -/

/-- C6 counterexample: with an active connection, a live tunnel and a
stored DSN, a failing backend disconnect makes `disconnect` propagate
the error immediately: the tunnel is never closed, and the connected
flag, tunnel reference and stored DSN all survive — nothing is cleared. -/
theorem disconnect_backend_failure_leaks :
    managerDisconnect
      (ManagerState.mk (some 0) true
        (some (SSHTunnelState.mk true true (some (SSHTunnelInfo.mk 15432 ("db") 5432)) true))
        (some ("postgres://u:p@db:5432/app"))) (.error ("disconnect failed")) =
      (ManagerState.mk (some 0) true
          (some (SSHTunnelState.mk true true (some (SSHTunnelInfo.mk 15432 ("db") 5432)) true))
          (some ("postgres://u:p@db:5432/app")),
        .error ("disconnect failed")) ∧
    managerTunnelActive
      (ManagerState.mk (some 0) true
        (some (SSHTunnelState.mk true true (some (SSHTunnelInfo.mk 15432 ("db") 5432)) true))
        (some ("postgres://u:p@db:5432/app"))) = true := ⟨rfl, rfl⟩

/-- C6 amended: while connected, `disconnect` first awaits the backend
disconnect; if that fails the error propagates at once and no state is
cleared (tunnel reference, connected flag and stored DSN all survive);
only when it succeeds does disconnect clear the connected flag, close
and drop the tunnel, and clear the stored DSN. -/
theorem managerDisconnect_characterization (st : ManagerState) (e : String)
    (h1 : st.activeConnector.isSome = true) (h2 : st.connected = true) :
    managerDisconnect st (.error e) = (st, .error e) ∧
    managerDisconnect st (.ok ()) =
      ({ st with connected := false, sshTunnel := none, originalDSN := none }, .ok ()) := by
  constructor
  · unfold managerDisconnect
    rw [h1, h2]
    rfl
  · unfold managerDisconnect
    rw [h1, h2]
    simp only [Bool.and_self, if_true]
    cases hst : st.sshTunnel with
    | none => simp [hst]
    | some t => simp [hst]

/-- C6 amended witness: both outcomes at a concrete connected state. -/
theorem managerDisconnect_witness :
    managerDisconnect
      { activeConnector := some 3, connected := true,
        sshTunnel := some ({ isConnected := true } : SSHTunnelState),
        originalDSN := some ("dsn") } (.error ("boom")) =
      ({ activeConnector := some 3, connected := true,
         sshTunnel := some ({ isConnected := true } : SSHTunnelState),
         originalDSN := some ("dsn") }, .error ("boom")) ∧
    managerDisconnect
      { activeConnector := some 3, connected := true,
        sshTunnel := some ({ isConnected := true } : SSHTunnelState),
        originalDSN := some ("dsn") } (.ok ()) =
      ({ activeConnector := some 3, connected := false, sshTunnel := none,
         originalDSN := none }, .ok ()) :=
  managerDisconnect_characterization
    { activeConnector := some 3, connected := true,
      sshTunnel := some ({ isConnected := true } : SSHTunnelState),
      originalDSN := some ("dsn") } ("boom") rfl rfl

/-! ## Claim C8: only the first IdentityFile directive is considered -/

/-- C8 counterexample: with two IdentityFile directives of which only
the SECOND points at an existing file, the resolver does not skip to it:
it checks only the first directive, finds it missing, falls back to the
(also missing) default key locations, and resolves with NO private key —
not with the existing second identity file as the claim requires. -/
theorem identityFile_no_skipping :
    parseSSHConfig ("al") true
      (some { HostName := some ("h"), User := some ("u"),
              IdentityFile := some [("~/.ssh/missing"), ("~/.ssh/present")] })
      (fun p => p == ("/home/u/.ssh/present")) ("/home/u") =
      some { host := "h", port := none, username := "u", password := none,
             privateKey := none, passphrase := none } ∧
    fileExistsM (fun p => p == ("/home/u/.ssh/present")) ("/home/u") ("~/.ssh/present") =
      true := by
  refine ⟨by decide, by decide⟩

/-- C8 amended: the resolver considers ONLY the first `IdentityFile`
directive: whenever resolution succeeds, the resulting private key is
the first directive's tilde-expanded path if that file exists, and
otherwise the first existing conventional default key location (later
IdentityFile directives are never consulted). -/
theorem parseSSHConfig_first_identity_only (alias0 : String) (hc : HostConfigMerged)
    (fs : String → Bool) (home : String) (idf : String) (rest : List String)
    (cfg : SSHTunnelConfig)
    (hid : hc.IdentityFile = some (idf :: rest))
    (h : parseSSHConfig alias0 true (some hc) fs home = some cfg) :
    cfg.privateKey =
      (if fileExistsM fs home (expandTilde home idf) = true
       then some (expandTilde home idf) else findDefaultSSHKey fs home) := by
  unfold parseSSHConfig at h
  simp only [Bool.not_true, Bool.false_eq_true, if_false] at h
  rw [hid] at h
  dsimp only at h
  cases hfe : fileExistsM fs home (expandTilde home idf) with
  | true =>
    rw [hfe] at h
    split_ifs at h
    all_goals (try simp_all)
    all_goals (rw [← h]; try rfl)
  | false =>
    rw [hfe] at h
    split_ifs at h
    all_goals (try simp_all)
    all_goals (rw [← h]; try rfl)

/-- C8 amended witness: a first directive whose file is missing resolves
to the default-key fallback (here absent), by the amended theorem. -/
theorem parseSSHConfig_first_identity_witness :
    SSHTunnelConfig.privateKey
      { host := "h", port := none, username := "u", password := none,
        privateKey := none, passphrase := none } =
      (if fileExistsM (fun p => p == ("/home/u/.ssh/present")) ("/home/u")
            (expandTilde ("/home/u") ("~/.ssh/missing")) = true
       then some (expandTilde ("/home/u") ("~/.ssh/missing"))
       else findDefaultSSHKey (fun p => p == ("/home/u/.ssh/present")) ("/home/u")) :=
  parseSSHConfig_first_identity_only ("al")
    { HostName := some ("h"), User := some ("u"),
      IdentityFile := some [("~/.ssh/missing"), ("~/.ssh/present")] }
    (fun p => p == ("/home/u/.ssh/present")) ("/home/u") ("~/.ssh/missing")
    [("~/.ssh/present")]
    { host := "h", port := none, username := "u", password := none,
      privateKey := none, passphrase := none }
    (by rfl) (by decide)


/-! ## Claim C9: credential redaction -/

/-- Helper: `takeWhile` over an append stops exactly at the boundary
when every left element satisfies the predicate and the right head does
not. -/
theorem takeWhile_append_of (p : Char → Bool) (l1 l2 : List Char)
    (h1 : ∀ c ∈ l1, p c = true) (h2 : ∀ c, l2.head? = some c → p c = false) :
    (l1 ++ l2).takeWhile p = l1 := by
  induction l1 with
  | nil =>
    cases l2 with
    | nil => rfl
    | cons c t => simp [List.takeWhile_cons, h2 c rfl]
  | cons a t ih =>
    have ha : p a = true := h1 a (by simp)
    have iht := ih (fun c hc => h1 c (by simp [hc]))
    simp [List.takeWhile_cons, ha, iht]

/-- Helper: the matching `dropWhile` fact. -/
theorem dropWhile_append_of (p : Char → Bool) (l1 l2 : List Char)
    (h1 : ∀ c ∈ l1, p c = true) (h2 : ∀ c, l2.head? = some c → p c = false) :
    (l1 ++ l2).dropWhile p = l2 := by
  induction l1 with
  | nil =>
    cases l2 with
    | nil => rfl
    | cons c t => simp [List.dropWhile_cons, h2 c rfl]
  | cons a t ih =>
    have ha : p a = true := h1 a (by simp)
    have iht := ih (fun c hc => h1 c (by simp [hc]))
    simp [List.dropWhile_cons, ha, iht]

/-- Helper: first index of a character after a block not containing
it. -/
theorem idxOfChar_append (c : Char) (l1 l2 : List Char) (h : c ∉ l1) :
    idxOfChar c (l1 ++ c :: l2) = some l1.length := by
  induction l1 with
  | nil => simp [idxOfChar]
  | cons a t ih =>
    have ha : ¬(a = c) := fun e => h (by simp [e])
    have iht := ih (fun hc => h (by simp [hc]))
    simp [idxOfChar, ha, iht]

/-- Helper: an `idxOfSub` search steps past a head that differs from
the needle's head. -/
theorem idxOfSub_cons_of_head_ne (n0 : Char) (ntl : List Char) (a : Char)
    (t : List Char) (ha : ¬(a = n0)) :
    idxOfSub (n0 :: ntl) (a :: t) = (idxOfSub (n0 :: ntl) t).map (· + 1) := by
  have hpf : (n0 :: ntl).isPrefixOf (a :: t) = false := by
    simp [List.isPrefixOf]
    intro he
    exact absurd he.symm ha
  simp [idxOfSub, hpf]

/-- Helper: the first `://` of `p ++ "://" ++ rest` sits right after a
colon-free `p`. -/
theorem idxOfSub_sep_at (p rest : List Char) (hp : ':' ∉ p) :
    idxOfSub [':', '/', '/'] (p ++ ':' :: '/' :: '/' :: rest) = some p.length := by
  induction p with
  | nil => simp [idxOfSub, List.isPrefixOf]
  | cons a t ih =>
    have ha : ¬(a = ':') := fun e => hp (by simp [e])
    have iht := ih (fun hc => hp (by simp [hc]))
    rw [List.cons_append, idxOfSub_cons_of_head_ne ':' ['/', '/'] a _ ha, iht]
    simp

/-- Helper: splitting `p ++ "://" ++ rest` on `://` for colon-free `p`
and separator-free `rest` yields exactly the two parts. -/
theorem splitSub_dsn (p rest : List Char) (hp : ':' ∉ p)
    (hrest : idxOfSub [':', '/', '/'] rest = none) :
    splitSub [':', '/', '/'] (p ++ ':' :: '/' :: '/' :: rest) = [p, rest] := by
  unfold splitSub
  simp only [List.isEmpty_cons, Bool.false_eq_true, if_false]
  have hlen : (p ++ ':' :: '/' :: '/' :: rest).length + 1 =
      (p.length + 3 + rest.length) + 1 := by simp; omega
  rw [hlen]
  show splitSubGo (p.length + 3 + rest.length + 1) _ _ = _
  have hstep : p.length + 3 + rest.length + 1 = (p.length + 2 + rest.length + 1) + 1 := by
    omega
  rw [hstep]
  unfold splitSubGo
  rw [idxOfSub_sep_at p rest hp]
  have h1 : (p ++ ':' :: '/' :: '/' :: rest).take p.length = p := by
    simpa using List.take_left p (':' :: '/' :: '/' :: rest)
  have heq : p ++ ':' :: '/' :: '/' :: rest = (p ++ [':', '/', '/']) ++ rest := by simp
  have h2 : (p ++ ':' :: '/' :: '/' :: rest).drop (p.length + 3) = rest := by
    rw [heq]
    have hl : (p ++ [':', '/', '/']).length = p.length + 3 := by simp
    rw [← hl]
    exact List.drop_left _ _
  simp only [List.length_cons, List.length_nil]
  rw [h1]
  show _ :: splitSubGo _ _ ((p ++ ':' :: '/' :: '/' :: rest).drop (p.length + 3)) = _
  rw [h2]
  have hpos : p.length + 2 + rest.length + 1 = (p.length + 2 + rest.length) + 1 := rfl
  rw [hpos]
  unfold splitSubGo
  rw [hrest]

/-- C9: credential redaction.  For a structured connection string
`p://u:w@hh` (scheme `p` non-empty, colon-free and not sqlite; username
`u` colon-free; host part `hh` without `@`; no second `://`), the
obfuscator replaces exactly the password by `min(|w|, 8)` asterisks —
never more than eight, and exactly eight for a 20-character password —
leaving scheme, username and host/path untouched.  A truthy SSH
password or passphrase is masked with exactly eight asterisks, while
host, port, username and the private-key path are passed through
unmasked. -/
theorem credential_redaction (p u w hh : List Char)
    (hp0 : p ≠ []) (hpc : ':' ∉ p) (hps : p ≠ ['s', 'q', 'l', 'i', 't', 'e'])
    (hu : ':' ∉ u) (hh0 : '@' ∉ hh)
    (hrest : idxOfSub [':', '/', '/'] (u ++ ':' :: w ++ '@' :: hh) = none) :
    obfuscateDSNPassword (p ++ ':' :: '/' :: '/' :: (u ++ ':' :: w ++ '@' :: hh)) =
      p ++ ':' :: '/' :: '/' :: (u ++ ':' :: (List.replicate (min w.length 8) ('*') ++
        '@' :: hh)) ∧
    (List.replicate (min w.length 8) ('*')).length ≤ 8 ∧
    (w.length = 20 → (List.replicate (min w.length 8) ('*')).length = 8) ∧
    (∀ (cfg : SSHTunnelConfig) (pw : String), cfg.password = some pw → pw.isEmpty = false →
      (obfuscateSSHConfig cfg).password = some ("********")) ∧
    (∀ (cfg : SSHTunnelConfig) (pk : String), cfg.privateKey = some pk → pk.isEmpty = false →
      (obfuscateSSHConfig cfg).privateKey = some pk) ∧
    (∀ (cfg : SSHTunnelConfig) (pp : String), cfg.passphrase = some pp → pp.isEmpty = false →
      (obfuscateSSHConfig cfg).passphrase = some ("********")) ∧
    (∀ cfg : SSHTunnelConfig, (obfuscateSSHConfig cfg).host = cfg.host ∧
      (obfuscateSSHConfig cfg).port = cfg.port ∧
      (obfuscateSSHConfig cfg).username = cfg.username) := by
  refine ⟨?_, by simp, by intro h20; simp [h20], ?_, ?_, ?_, ?_⟩
  · unfold obfuscateDSNPassword
    dsimp only
    have hdne : (p ++ ':' :: '/' :: '/' :: (u ++ ':' :: w ++ '@' :: hh)).isEmpty = false := by
      cases p <;> simp
    rw [hdne]
    have hproto : (p ++ ':' :: '/' :: '/' :: (u ++ ':' :: w ++ '@' :: hh)).takeWhile
        (fun c => c ≠ ':') = p := by
      apply takeWhile_append_of
      · intro c hc
        simp only [ne_eq, decide_eq_true_eq]
        intro e
        exact hpc (e ▸ hc)
      · intro c hc
        simp only [List.head?_cons, Option.some.injEq] at hc
        subst hc
        simp
    rw [hproto]
    have hpe : p.isEmpty = false := by
      cases p with
      | nil => exact absurd rfl hp0
      | cons a t => rfl
    rw [hpe]
    have hplen : (decide (p.length =
        (p ++ ':' :: '/' :: '/' :: (u ++ ':' :: w ++ '@' :: hh)).length)) = false := by
      rw [decide_eq_false_iff_not]
      simp only [List.length_append, List.length_cons]
      omega
    rw [hplen]
    rw [if_neg (show ¬(false = true) by simp)]
    rw [if_neg (show ¬((false || false) = true) by simp)]
    rw [if_neg hps]
    rw [splitSub_dsn p (u ++ ':' :: w ++ '@' :: hh) hpc hrest]
    simp only [List.get?_cons_succ, List.get?_cons_zero]
    try dsimp only
    have hre : (u ++ ':' :: w ++ '@' :: hh).isEmpty = false := by
      cases u <;> rfl
    rw [hre]
    rw [if_neg (show ¬(false = true) by simp)]
    have hlast : lastIdxOfChar '@' (u ++ ':' :: w ++ '@' :: hh) =
        some (u.length + w.length + 1) := by
      unfold lastIdxOfChar
      have hrev : (u ++ ':' :: w ++ '@' :: hh).reverse =
          hh.reverse ++ '@' :: (w.reverse ++ ':' :: u.reverse) := by
        simp
      rw [hrev, idxOfChar_append '@' hh.reverse _ (by simpa using hh0)]
      simp only [Option.map_some']
      congr 1
      simp only [List.length_append, List.length_cons, List.length_reverse]
      omega
    rw [hlast]
    try dsimp only
    have hcred : (u ++ ':' :: w ++ '@' :: hh).take (u.length + w.length + 1) =
        u ++ ':' :: w := by
      have heq : u ++ ':' :: w ++ '@' :: hh = (u ++ ':' :: w) ++ '@' :: hh := by simp
      have hl : (u ++ ':' :: w).length = u.length + w.length + 1 := by
        simp only [List.length_append, List.length_cons]
        omega
      rw [heq, ← hl]
      exact List.take_left _ _
    rw [hcred]
    have hcol : idxOfChar ':' (u ++ ':' :: w) = some u.length := idxOfChar_append ':' u w hu
    rw [hcol]
    try dsimp only
    have hhost : (u ++ ':' :: w ++ '@' :: hh).drop (u.length + w.length + 1 + 1) = hh := by
      have heq : u ++ ':' :: w ++ '@' :: hh = (u ++ ':' :: w ++ ['@']) ++ hh := by simp
      have hl : (u ++ ':' :: w ++ ['@']).length = u.length + w.length + 1 + 1 := by
        simp only [List.length_append, List.length_cons, List.length_nil]
        omega
      rw [heq, ← hl]
      exact List.drop_left _ _
    rw [hhost]
    have huser : (u ++ ':' :: w).take u.length = u := by
      simpa using List.take_left u (':' :: w)
    have hpass : (u ++ ':' :: w).drop (u.length + 1) = w := by
      have heq : u ++ ':' :: w = (u ++ [':']) ++ w := by simp
      have hl : (u ++ [':']).length = u.length + 1 := by simp
      rw [heq, ← hl]
      exact List.drop_left _ _
    rw [huser, hpass]
    simp
  · intro cfg pw hpw hne
    simp [obfuscateSSHConfig, hpw, hne]
  · intro cfg pk hpk hne
    simp [obfuscateSSHConfig, hpk, hne]
  · intro cfg pp hpp hne
    simp [obfuscateSSHConfig, hpp, hne]
  · intro cfg
    exact ⟨rfl, rfl, rfl⟩

/-- C9 witness: a 20-character password in a postgres DSN is reduced to
exactly eight asterisks with scheme, user and host/path intact, and a
concrete SSH config keeps its private key path while its password is
masked; all by `credential_redaction`. -/
theorem credential_redaction_witness :
    obfuscateDSNPassword (("postgres://user:aaaaaaaaaaaaaaaaaaaa@db:5432/app").toList) =
      (("postgres://user:********@db:5432/app").toList) ∧
    (obfuscateSSHConfig (SSHTunnelConfig.mk ("bastion") none ("u")
        (some ("secretpassword")) (some ("/home/u/.ssh/id_rsa")) none)).password =
      some ("********") ∧
    (obfuscateSSHConfig (SSHTunnelConfig.mk ("bastion") none ("u")
        (some ("secretpassword")) (some ("/home/u/.ssh/id_rsa")) none)).privateKey =
      some ("/home/u/.ssh/id_rsa") := by
  have h := credential_redaction (("postgres").toList) (("user").toList)
    (("aaaaaaaaaaaaaaaaaaaa").toList) (("db:5432/app").toList)
    (by decide) (by decide) (by decide) (by decide) (by decide) (by decide)
  refine ⟨?_, ?_, ?_⟩
  · exact h.1
  · exact h.2.2.2.1 _ ("secretpassword") rfl rfl
  · exact h.2.2.2.2.1 _ ("/home/u/.ssh/id_rsa") rfl rfl

/-! ## Claims C4 and C5: the row-cap rewriter

The proofs work with the leftmost-match machinery: characterizations of
the three anchored matchers, soundness/minimality/construction lemmas
for `findFrom`, and transfer lemmas showing that replacing the matched
span cannot create an earlier match. -/

/-- Helper: a digit character is not JS whitespace. -/
theorem isDigit_not_jsSpace (c : Char) (h : c.isDigit = true) : jsSpace c = false := by
  cases hs : jsSpace c with
  | false => rfl
  | true =>
    exfalso
    unfold jsSpace at hs
    simp only [Bool.or_eq_true, decide_eq_true_eq] at hs
    rcases hs with ((((e | e) | e) | e) | e) | e <;> subst e <;> simp [Char.isDigit] at h

/-- Helper: JS whitespace is never a digit. -/
theorem jsSpace_not_isDigit (c : Char) (h : jsSpace c = true) : c.isDigit = false := by
  cases hd : c.isDigit with
  | false => rfl
  | true => exact absurd h (by simp [isDigit_not_jsSpace c hd])

/-- Helper: JS whitespace is not a word character. -/
theorem jsSpace_not_word (c : Char) (h : jsSpace c = true) : isWordChar c = false := by
  unfold jsSpace at h
  simp only [Bool.or_eq_true, decide_eq_true_eq] at h
  rcases h with ((((e | e) | e) | e) | e) | e <;> subst e <;> decide

/-- Helper: lower-casing fixes digits. -/
theorem toLower_of_isDigit (c : Char) (h : c.isDigit = true) : Char.toLower c = c := by
  unfold Char.toLower
  unfold Char.isDigit at h
  simp only [Bool.and_eq_true, decide_eq_true_eq] at h
  have h2 : c.toNat ≤ 57 := by
    have hh := h.2
    rw [UInt32.le_def] at hh
    exact hh
  rw [if_neg]
  omega

/-- Helper: a character whose lower case is a lower-case letter is not a
digit. -/
theorem isDigit_false_of_toLower (c x : Char) (hx : Char.toLower c = x)
    (hxd : x.isDigit = false) : c.isDigit = false := by
  cases hd : c.isDigit with
  | false => rfl
  | true =>
    rw [toLower_of_isDigit c hd] at hx
    rw [hx] at hd
    rw [hd] at hxd
    exact absurd hxd (by simp)

/-- Helper: `digitChar` produces digit characters. -/
theorem digitChar_isDigit (d : Nat) (h : d < 10) : (digitChar d).isDigit = true := by
  interval_cases d <;> decide

/-- Helper: `digitChar` round-trips through `toNat`. -/
theorem digitChar_toNat (d : Nat) (h : d < 10) : (digitChar d).toNat = 48 + d := by
  interval_cases d <;> decide

/-- Helper: rendering zero consumes no fuel. -/
theorem natDigitsGo_zero (fuel : Nat) (acc : List Char) : natDigitsGo fuel 0 acc = acc := by
  cases fuel <;> simp [natDigitsGo]

/-- Helper: the accumulator splits off the rendered digits. -/
theorem natDigitsGo_append (fuel : Nat) : ∀ (n : Nat) (acc : List Char),
    natDigitsGo fuel n acc = natDigitsGo fuel n [] ++ acc := by
  induction fuel with
  | zero => intro n acc; simp [natDigitsGo]
  | succ f ih =>
    intro n acc
    by_cases hn : n = 0
    · simp [natDigitsGo, hn]
    · simp only [natDigitsGo, hn, if_false]
      rw [ih (n / 10) (digitChar (n % 10) :: acc), ih (n / 10) [digitChar (n % 10)]]
      simp

/-- Helper: every rendered character is a digit. -/
theorem natDigits_all_digit (n : Nat) : ∀ c ∈ natDigits n, c.isDigit = true := by
  unfold natDigits
  by_cases hn : n = 0
  · simp [hn]
  · simp only [hn, if_false]
    have hgo : ∀ (fuel : Nat) (k : Nat) (acc : List Char), (∀ c ∈ acc, c.isDigit = true) →
        ∀ c ∈ natDigitsGo fuel k acc, c.isDigit = true := by
      intro fuel
      induction fuel with
      | zero => intro k acc hacc; simpa [natDigitsGo] using hacc
      | succ f ih =>
        intro k acc hacc
        by_cases hk : k = 0
        · simpa [natDigitsGo, hk] using hacc
        · simp only [natDigitsGo, hk, if_false]
          apply ih
          intro c hc
          rcases List.mem_cons.mp hc with e | e
          · subst e; exact digitChar_isDigit _ (Nat.mod_lt _ (by omega))
          · exact hacc c e
    exact hgo n n [] (by simp)

/-- Helper: a positive number renders at least one digit. -/
theorem natDigits_ne_nil (n : Nat) : natDigits n ≠ [] := by
  unfold natDigits
  by_cases hn : n = 0
  · simp [hn]
  · simp only [hn, if_false]
    cases n with
    | zero => exact absurd rfl hn
    | succ k =>
      show natDigitsGo (k + 1) (k + 1) [] ≠ []
      simp only [natDigitsGo]
      rw [natDigitsGo_append]
      simp

/-- Helper: `parseDigits` on a snoc. -/
theorem parseDigits_concat (l : List Char) (c : Char) :
    parseDigits (l ++ [c]) = parseDigits l * 10 + (c.toNat - 48) := by
  simp [parseDigits, List.foldl_append]

/-- Helper: decimal render/parse round trip. -/
theorem parseDigits_natDigits (n : Nat) : parseDigits (natDigits n) = n := by
  unfold natDigits
  by_cases hn : n = 0
  · simp [hn, parseDigits]
  · simp only [hn, if_false]
    have hgo : ∀ (fuel : Nat) (k : Nat), k ≠ 0 → k ≤ fuel →
        parseDigits (natDigitsGo fuel k []) = k := by
      intro fuel
      induction fuel with
      | zero => intro k hk hle; omega
      | succ f ih =>
        intro k hk hle
        simp only [natDigitsGo, hk, if_false]
        rw [natDigitsGo_append, parseDigits_concat,
          digitChar_toNat (k % 10) (Nat.mod_lt _ (by omega))]
        by_cases hq : k / 10 = 0
        · rw [hq, natDigitsGo_zero]
          have : parseDigits [] = 0 := rfl
          rw [this]
          omega
        · rw [ih (k / 10) hq (by omega)]
          omega
    exact hgo n n hn (le_refl n)

/-- Helper: drop past the `takeWhile` prefix is `dropWhile`. -/
theorem drop_length_takeWhile (p : Char → Bool) (l : List Char) :
    l.drop (l.takeWhile p).length = l.dropWhile p := by
  induction l with
  | nil => rfl
  | cons a t ih =>
    by_cases ha : p a
    · simp [List.takeWhile_cons, List.dropWhile_cons, ha, ih]
    · simp [List.takeWhile_cons, List.dropWhile_cons, ha]

/-- Helper: the head of `dropWhile` fails the predicate. -/
theorem head_dropWhile_not (p : Char → Bool) (l : List Char) :
    ∀ c, (l.dropWhile p).head? = some c → p c = false := by
  induction l with
  | nil => intro c hc; simp at hc
  | cons a t ih =>
    intro c hc
    by_cases ha : p a
    · rw [List.dropWhile_cons_of_pos ha] at hc
      exact ih c hc
    · rw [List.dropWhile_cons_of_neg ha] at hc
      simp only [List.head?_cons, Option.some.injEq] at hc
      subst hc
      simpa using ha

/-- Helper: a case-insensitive prefix test only inspects pattern-many
characters. -/
theorem ciStarts_append_left (pat : List Char) : ∀ (w rest : List Char),
    pat.length ≤ w.length → ciStarts pat (w ++ rest) = ciStarts pat w := by
  induction pat with
  | nil => intro w rest _; rfl
  | cons p ps ih =>
    intro w rest hlen
    cases w with
    | nil => simp at hlen
    | cons c cs =>
      simp only [List.cons_append, ciStarts, List.append_eq]
      rw [ih cs rest (by simpa using hlen)]

/-- Helper: a successful prefix test needs at least pattern-many
characters. -/
theorem ciStarts_length_le (pat : List Char) : ∀ (l : List Char),
    ciStarts pat l = true → pat.length ≤ l.length := by
  induction pat with
  | nil => intro l _; simp
  | cons p ps ih =>
    intro l h
    cases l with
    | nil => simp [ciStarts] at h
    | cons c cs =>
      simp only [ciStarts, Bool.and_eq_true] at h
      have := ih cs h.2
      simp only [List.length_cons]
      omega

/-- Helper: a matched position inside a case-insensitive match carries
the corresponding (lower-cased) pattern letter. -/
theorem ciStarts_char_at (pat : List Char) : ∀ (a : List Char) (c0 : Char) (t : List Char)
    (hlt : a.length < pat.length), ciStarts pat (a ++ c0 :: t) = true →
    Char.toLower c0 = pat.get ⟨a.length, hlt⟩ := by
  induction pat with
  | nil => intro a c0 t hlt; simp at hlt
  | cons p ps ih =>
    intro a c0 t hlt h
    cases a with
    | nil =>
      simp only [List.nil_append, ciStarts, Bool.and_eq_true, decide_eq_true_eq] at h
      exact h.1
    | cons x a2 =>
      simp only [List.cons_append, ciStarts, Bool.and_eq_true] at h
      have hlt2 : a2.length < ps.length := by simpa using hlt
      have := ih a2 c0 t hlt2 h.2
      simpa using this

/-- Helper: lower-casing fixes JS whitespace. -/
theorem jsSpace_toLower (c : Char) (h : jsSpace c = true) : Char.toLower c = c := by
  unfold jsSpace at h
  simp only [Bool.or_eq_true, decide_eq_true_eq] at h
  rcases h with ((((e | e) | e) | e) | e) | e <;> subst e <;> decide

/-- Helper: a character whose lower case is a non-space letter is not
JS whitespace. -/
theorem jsSpace_false_of_toLower (c x : Char) (hx : Char.toLower c = x)
    (hxs : jsSpace x = false) : jsSpace c = false := by
  cases hs : jsSpace c with
  | false => rfl
  | true =>
    rw [jsSpace_toLower c hs] at hx
    subst hx
    rw [hs] at hxs
    exact absurd hxs (by simp)

/-- Characterization (sound direction) of the `limit\s+\d+` matcher: a
match decomposes the text into the ci-matched word, a maximal non-empty
whitespace run, a maximal non-empty digit run and the remainder. -/
theorem matchLimitAt_some (l : List Char) (k v : Nat)
    (h : matchLimitAt l = some (k, v)) :
    ∃ w sp ds rest, l = w ++ sp ++ ds ++ rest ∧ w.length = 5 ∧
      ciStarts ['l', 'i', 'm', 'i', 't'] w = true ∧
      sp ≠ [] ∧ (∀ c ∈ sp, jsSpace c = true) ∧
      ds ≠ [] ∧ (∀ c ∈ ds, Char.isDigit c = true) ∧
      (∀ c, rest.head? = some c → Char.isDigit c = false) ∧
      k = 5 + sp.length + ds.length ∧ v = parseDigits ds := by
  unfold matchLimitAt at h
  by_cases hci : ciStarts ['l', 'i', 'm', 'i', 't'] l = true
  · rw [if_pos hci] at h
    dsimp only at h
    rw [drop_length_takeWhile] at h
    split_ifs at h with h1 h2
    · have hkv := Option.some.inj h
      simp only [Prod.mk.injEq] at hkv
      refine ⟨l.take 5, (l.drop 5).takeWhile jsSpace,
        ((l.drop 5).dropWhile jsSpace).takeWhile Char.isDigit,
        ((l.drop 5).dropWhile jsSpace).dropWhile Char.isDigit, ?_, ?_, ?_, ?_, ?_, ?_, ?_, ?_,
        ?_, ?_⟩
      · have e3 : (l.drop 5).dropWhile jsSpace =
            ((l.drop 5).dropWhile jsSpace).takeWhile Char.isDigit ++
              ((l.drop 5).dropWhile jsSpace).dropWhile Char.isDigit :=
          (List.takeWhile_append_dropWhile _ _).symm
        have e2 : l.drop 5 = (l.drop 5).takeWhile jsSpace ++ (l.drop 5).dropWhile jsSpace :=
          (List.takeWhile_append_dropWhile _ _).symm
        have e1 : l = l.take 5 ++ l.drop 5 := (List.take_append_drop 5 l).symm
        rw [e3] at e2
        rw [e2] at e1
        simp only [List.append_assoc]
        exact e1
      · have h5 : 5 ≤ l.length := by simpa using ciStarts_length_le _ l hci
        simp only [List.length_take]
        omega
      · have h5 : (5 : Nat) ≤ (l.take 5).length := by
          have : 5 ≤ l.length := by simpa using ciStarts_length_le _ l hci
          simp only [List.length_take]
          omega
        rw [← ciStarts_append_left _ (l.take 5) (l.drop 5) (by simpa using h5),
          List.take_append_drop]
        exact hci
      · simpa using h1
      · intro c hc; exact List.mem_takeWhile_imp hc
      · simpa using h2
      · intro c hc; exact List.mem_takeWhile_imp hc
      · exact head_dropWhile_not _ _
      · exact hkv.1.symm
      · exact hkv.2.symm
  · rw [if_neg hci] at h
    exact absurd h (by simp)

/-- Characterization (construction direction) of the `limit\s+\d+`
matcher. -/
theorem matchLimitAt_construct (w sp ds rest : List Char)
    (hw : w.length = 5) (hci : ciStarts ['l', 'i', 'm', 'i', 't'] w = true)
    (hsp : sp ≠ []) (hsp1 : ∀ c ∈ sp, jsSpace c = true)
    (hds : ds ≠ []) (hds1 : ∀ c ∈ ds, Char.isDigit c = true)
    (hrest : ∀ c, rest.head? = some c → Char.isDigit c = false) :
    matchLimitAt (w ++ sp ++ ds ++ rest) =
      some (5 + sp.length + ds.length, parseDigits ds) := by
  simp only [List.append_assoc]
  unfold matchLimitAt
  have hciL : ciStarts ['l', 'i', 'm', 'i', 't'] (w ++ (sp ++ (ds ++ rest))) = true := by
    rw [ciStarts_append_left ['l', 'i', 'm', 'i', 't'] w (sp ++ (ds ++ rest)) (by simp [hw])]
    exact hci
  rw [if_pos hciL]
  dsimp only
  have hdrop : (w ++ (sp ++ (ds ++ rest))).drop 5 = sp ++ (ds ++ rest) := List.drop_left' hw
  rw [hdrop]
  have hds0 : ∀ c, (ds ++ rest).head? = some c → jsSpace c = false := by
    cases ds with
    | nil => exact absurd rfl hds
    | cons d dt =>
      intro c hc
      simp only [List.cons_append, List.head?_cons, Option.some.injEq] at hc
      subst hc
      exact isDigit_not_jsSpace _ (hds1 _ (by simp))
  have htw : (sp ++ (ds ++ rest)).takeWhile jsSpace = sp := takeWhile_append_of _ sp _ hsp1 hds0
  rw [htw]
  have hspE : sp.isEmpty = false := by
    cases sp with
    | nil => exact absurd rfl hsp
    | cons a t => rfl
  rw [hspE, if_neg (by simp)]
  rw [List.drop_left]
  have htd : (ds ++ rest).takeWhile Char.isDigit = ds := takeWhile_append_of _ ds _ hds1 hrest
  rw [htd]
  have hdsE : ds.isEmpty = false := by
    cases ds with
    | nil => exact absurd rfl hds
    | cons a t => rfl
  rw [hdsE, if_neg (by simp)]

/-- Characterization (sound direction) of the `select\s+top\s+\d+`
matcher. -/
theorem matchTopAt_some (l : List Char) (k v : Nat)
    (h : matchTopAt l = some (k, v)) :
    ∃ w6 sp1 w3 sp2 ds rest, l = w6 ++ sp1 ++ w3 ++ sp2 ++ ds ++ rest ∧
      w6.length = 6 ∧ ciStarts ['s', 'e', 'l', 'e', 'c', 't'] w6 = true ∧
      sp1 ≠ [] ∧ (∀ c ∈ sp1, jsSpace c = true) ∧
      w3.length = 3 ∧ ciStarts ['t', 'o', 'p'] w3 = true ∧
      sp2 ≠ [] ∧ (∀ c ∈ sp2, jsSpace c = true) ∧
      ds ≠ [] ∧ (∀ c ∈ ds, Char.isDigit c = true) ∧
      (∀ c, rest.head? = some c → Char.isDigit c = false) ∧
      k = 6 + sp1.length + 3 + sp2.length + ds.length ∧ v = parseDigits ds := by
  unfold matchTopAt at h
  by_cases hci : ciStarts ['s', 'e', 'l', 'e', 'c', 't'] l = true
  · rw [if_pos hci] at h
    dsimp only at h
    rw [drop_length_takeWhile] at h
    by_cases hct : ciStarts ['t', 'o', 'p'] ((l.drop 6).dropWhile jsSpace) = true
    · rw [drop_length_takeWhile] at h
      split_ifs at h with h1 h2 h3
      · have hkv := Option.some.inj h
        simp only [Prod.mk.injEq] at hkv
        have hc6 : 6 ≤ l.length := by simpa using ciStarts_length_le _ l hci
        have hc3 : 3 ≤ ((l.drop 6).dropWhile jsSpace).length := by simpa using ciStarts_length_le _ _ hct
        refine ⟨l.take 6, (l.drop 6).takeWhile jsSpace,
          ((l.drop 6).dropWhile jsSpace).take 3,
          (((l.drop 6).dropWhile jsSpace).drop 3).takeWhile jsSpace,
          ((((l.drop 6).dropWhile jsSpace).drop 3).dropWhile jsSpace).takeWhile Char.isDigit,
          ((((l.drop 6).dropWhile jsSpace).drop 3).dropWhile jsSpace).dropWhile Char.isDigit,
          ?_, ?_, ?_, ?_, ?_, ?_, ?_, ?_, ?_, ?_, ?_, ?_, ?_, ?_⟩
        · have e5 : (((l.drop 6).dropWhile jsSpace).drop 3).dropWhile jsSpace =
              ((((l.drop 6).dropWhile jsSpace).drop 3).dropWhile jsSpace).takeWhile
                Char.isDigit ++
              ((((l.drop 6).dropWhile jsSpace).drop 3).dropWhile jsSpace).dropWhile
                Char.isDigit :=
            (List.takeWhile_append_dropWhile _ _).symm
          have e4 : ((l.drop 6).dropWhile jsSpace).drop 3 =
              (((l.drop 6).dropWhile jsSpace).drop 3).takeWhile jsSpace ++
              (((l.drop 6).dropWhile jsSpace).drop 3).dropWhile jsSpace :=
            (List.takeWhile_append_dropWhile _ _).symm
          have e3 : (l.drop 6).dropWhile jsSpace =
              ((l.drop 6).dropWhile jsSpace).take 3 ++ ((l.drop 6).dropWhile jsSpace).drop 3 :=
            (List.take_append_drop 3 _).symm
          have e2 : l.drop 6 = (l.drop 6).takeWhile jsSpace ++ (l.drop 6).dropWhile jsSpace :=
            (List.takeWhile_append_dropWhile _ _).symm
          have e1 : l = l.take 6 ++ l.drop 6 := (List.take_append_drop 6 l).symm
          rw [e5] at e4
          rw [e4] at e3
          rw [e3] at e2
          rw [e2] at e1
          simp only [List.append_assoc]
          exact e1
        · simp only [List.length_take]
          omega
        · have h6 : (6 : Nat) ≤ (l.take 6).length := by
            simp only [List.length_take]
            omega
          rw [← ciStarts_append_left _ (l.take 6) (l.drop 6) (by simpa using h6),
            List.take_append_drop]
          exact hci
        · simpa using h1
        · intro c hc; exact List.mem_takeWhile_imp hc
        · simp only [List.length_take]
          omega
        · have h3l : (3 : Nat) ≤ (((l.drop 6).dropWhile jsSpace).take 3).length := by
            simp only [List.length_take]
            omega
          rw [← ciStarts_append_left _ (((l.drop 6).dropWhile jsSpace).take 3)
              (((l.drop 6).dropWhile jsSpace).drop 3) (by simpa using h3l),
            List.take_append_drop]
          exact hct
        · simpa using h2
        · intro c hc; exact List.mem_takeWhile_imp hc
        · simpa using h3
        · intro c hc; exact List.mem_takeWhile_imp hc
        · exact head_dropWhile_not _ _
        · exact hkv.1.symm
        · exact hkv.2.symm
    · rw [if_neg hct] at h
      exact absurd h (by simp)
  · rw [if_neg hci] at h
    exact absurd h (by simp)

/-- Characterization (construction direction) of the
`select\s+top\s+\d+` matcher. -/
theorem matchTopAt_construct (w6 sp1 w3 sp2 ds rest : List Char)
    (hw6 : w6.length = 6) (hci6 : ciStarts ['s', 'e', 'l', 'e', 'c', 't'] w6 = true)
    (hsp1 : sp1 ≠ []) (hsp1a : ∀ c ∈ sp1, jsSpace c = true)
    (hw3 : w3.length = 3) (hci3 : ciStarts ['t', 'o', 'p'] w3 = true)
    (hsp2 : sp2 ≠ []) (hsp2a : ∀ c ∈ sp2, jsSpace c = true)
    (hds : ds ≠ []) (hds1 : ∀ c ∈ ds, Char.isDigit c = true)
    (hrest : ∀ c, rest.head? = some c → Char.isDigit c = false) :
    matchTopAt (w6 ++ sp1 ++ w3 ++ sp2 ++ ds ++ rest) =
      some (6 + sp1.length + 3 + sp2.length + ds.length, parseDigits ds) := by
  simp only [List.append_assoc]
  unfold matchTopAt
  have hciL : ciStarts ['s', 'e', 'l', 'e', 'c', 't']
      (w6 ++ (sp1 ++ (w3 ++ (sp2 ++ (ds ++ rest))))) = true := by
    rw [ciStarts_append_left ['s', 'e', 'l', 'e', 'c', 't'] w6
      (sp1 ++ (w3 ++ (sp2 ++ (ds ++ rest)))) (by simp [hw6])]
    exact hci6
  rw [if_pos hciL]
  dsimp only
  rw [List.drop_left' hw6]
  have hw3h : ∀ c, (w3 ++ (sp2 ++ (ds ++ rest))).head? = some c → jsSpace c = false := by
    cases w3 with
    | nil => simp at hw3
    | cons x xt =>
      intro c hc
      simp only [List.cons_append, List.head?_cons, Option.some.injEq] at hc
      subst hc
      simp only [ciStarts, Bool.and_eq_true, decide_eq_true_eq] at hci3
      exact jsSpace_false_of_toLower _ 't' hci3.1 (by decide)
  have htw1 : (sp1 ++ (w3 ++ (sp2 ++ (ds ++ rest)))).takeWhile jsSpace = sp1 :=
    takeWhile_append_of _ sp1 _ hsp1a hw3h
  rw [htw1]
  have hsp1E : sp1.isEmpty = false := by
    cases sp1 with
    | nil => exact absurd rfl hsp1
    | cons a t => rfl
  rw [hsp1E, if_neg (by simp)]
  rw [List.drop_left]
  have hciT : ciStarts ['t', 'o', 'p'] (w3 ++ (sp2 ++ (ds ++ rest))) = true := by
    rw [ciStarts_append_left ['t', 'o', 'p'] w3 (sp2 ++ (ds ++ rest)) (by simp [hw3])]
    exact hci3
  rw [if_pos hciT]
  rw [List.drop_left' hw3]
  have hds0 : ∀ c, (ds ++ rest).head? = some c → jsSpace c = false := by
    cases ds with
    | nil => exact absurd rfl hds
    | cons d dt =>
      intro c hc
      simp only [List.cons_append, List.head?_cons, Option.some.injEq] at hc
      subst hc
      exact isDigit_not_jsSpace _ (hds1 _ (by simp))
  have htw2 : (sp2 ++ (ds ++ rest)).takeWhile jsSpace = sp2 :=
    takeWhile_append_of _ sp2 _ hsp2a hds0
  rw [htw2]
  have hsp2E : sp2.isEmpty = false := by
    cases sp2 with
    | nil => exact absurd rfl hsp2
    | cons a t => rfl
  rw [hsp2E, if_neg (by simp)]
  rw [List.drop_left]
  have htd : (ds ++ rest).takeWhile Char.isDigit = ds := takeWhile_append_of _ ds _ hds1 hrest
  rw [htd]
  have hdsE : ds.isEmpty = false := by
    cases ds with
    | nil => exact absurd rfl hds
    | cons a t => rfl
  rw [hdsE, if_neg (by simp)]

/-- Characterization (sound direction) of the `select\s+` matcher: the
whitespace run is maximal. -/
theorem matchSelAt_some (l : List Char) (k : Nat)
    (h : matchSelAt l = some k) :
    ∃ w sp rest, l = w ++ sp ++ rest ∧ w.length = 6 ∧
      ciStarts ['s', 'e', 'l', 'e', 'c', 't'] w = true ∧
      sp ≠ [] ∧ (∀ c ∈ sp, jsSpace c = true) ∧
      (∀ c, rest.head? = some c → jsSpace c = false) ∧
      k = 6 + sp.length := by
  unfold matchSelAt at h
  by_cases hci : ciStarts ['s', 'e', 'l', 'e', 'c', 't'] l = true
  · rw [if_pos hci] at h
    dsimp only at h
    split_ifs at h with h1
    · have hk := Option.some.inj h
      have hc6 : 6 ≤ l.length := by simpa using ciStarts_length_le _ l hci
      refine ⟨l.take 6, (l.drop 6).takeWhile jsSpace, (l.drop 6).dropWhile jsSpace,
        ?_, ?_, ?_, ?_, ?_, ?_, ?_⟩
      · have e2 : l.drop 6 = (l.drop 6).takeWhile jsSpace ++ (l.drop 6).dropWhile jsSpace :=
          (List.takeWhile_append_dropWhile _ _).symm
        have e1 : l = l.take 6 ++ l.drop 6 := (List.take_append_drop 6 l).symm
        rw [e2] at e1
        simp only [List.append_assoc]
        exact e1
      · simp only [List.length_take]
        omega
      · have h6 : (6 : Nat) ≤ (l.take 6).length := by
          simp only [List.length_take]
          omega
        rw [← ciStarts_append_left _ (l.take 6) (l.drop 6) (by simpa using h6),
          List.take_append_drop]
        exact hci
      · simpa using h1
      · intro c hc; exact List.mem_takeWhile_imp hc
      · exact head_dropWhile_not _ _
      · omega
  · rw [if_neg hci] at h
    exact absurd h (by simp)

/-! ## Leftmost-scan machinery -/

/-- Source `findFrom` unfolding on a cons cell. -/
theorem findFrom_cons (f : List Char → Option α) (prev : Option Char) (c : Char)
    (cs : List Char) :
    findFrom f prev (c :: cs) =
      match (if wordBoundary prev then f (c :: cs) else none) with
      | some a => some (0, a)
      | none => (findFrom f (some c) cs).map (fun p => (p.1 + 1, p.2)) := rfl

/-- The previous-character tracker ignores the seed on a non-empty list. -/
theorem prevAfter_cons_eq (prev : Option Char) (c : Char) (P : List Char) :
    prevAfter prev (c :: P) = prevAfter (some c) P := by
  cases P with
  | nil => simp [prevAfter]
  | cons a t =>
    have hg : (a :: t).getLast? = some ((a :: t).getLast (by simp)) :=
      List.getLast?_eq_getLast _ _
    simp [prevAfter, List.getLast?_cons_cons, hg]

/-- The previous-character tracker composes over append. -/
theorem prevAfter_append (prev : Option Char) (A B : List Char) :
    prevAfter prev (A ++ B) = prevAfter (prevAfter prev A) B := by
  induction A generalizing prev with
  | nil => rfl
  | cons c A' ih => rw [List.cons_append, prevAfter_cons_eq, prevAfter_cons_eq, ih]

/-- The previous character after a string ending in `x` is `x`. -/
theorem prevAfter_concat (prev : Option Char) (A : List Char) (x : Char) :
    prevAfter prev (A ++ [x]) = some x := by
  rw [prevAfter_append]
  simp [prevAfter]

/-- An empty scan region is vacuously clear. -/
theorem scanNone_nil (f : List Char → Option α) (prev : Option Char) (R : List Char) :
    scanNone f prev [] R := by
  intro P1 c P2 h _
  exact absurd h (by simp)

/-- Characterization of a clear scan region starting with a cons cell. -/
theorem scanNone_cons_iff (f : List Char → Option α) (prev : Option Char) (c : Char)
    (P R : List Char) :
    scanNone f prev (c :: P) R ↔
      ((wordBoundary prev = true → f (c :: (P ++ R)) = none) ∧ scanNone f (some c) P R) := by
  constructor
  · intro h
    refine ⟨fun hb => h [] c P rfl (by simpa [prevAfter] using hb), ?_⟩
    intro P1 d P2 hs hb
    have hs2 : c :: P = (c :: P1) ++ d :: P2 := by rw [hs]; rfl
    have hb2 : wordBoundary (prevAfter prev (c :: P1)) = true := by
      rw [prevAfter_cons_eq]; exact hb
    exact h (c :: P1) d P2 hs2 hb2
  · rintro ⟨h0, h1⟩ P1 d P2 hs hb
    cases P1 with
    | nil =>
      simp only [List.nil_append] at hs
      injection hs with hcd hPP
      subst hcd
      subst hPP
      exact h0 (by simpa [prevAfter] using hb)
    | cons a t =>
      simp only [List.cons_append] at hs
      injection hs with hca hPt
      subst hca
      rw [prevAfter_cons_eq] at hb
      exact h1 t d P2 hPt hb

/-- A clear scan region shifts the scan result past it. -/
theorem findFrom_of_scanNone (f : List Char → Option α) :
    ∀ (P : List Char) (prev : Option Char) (R : List Char), scanNone f prev P R →
      findFrom f prev (P ++ R) =
        (findFrom f (prevAfter prev P) R).map (fun p => (p.1 + P.length, p.2)) := by
  intro P
  induction P with
  | nil =>
    intro prev R _
    cases h : findFrom f prev R <;> simp [prevAfter, h]
  | cons c P' ih =>
    intro prev R hscan
    obtain ⟨h0, h1⟩ := (scanNone_cons_iff f prev c P' R).1 hscan
    have hif : (if wordBoundary prev then f (c :: (P' ++ R)) else none) = none := by
      cases hb : wordBoundary prev with
      | false => simp
      | true => simp [h0 hb]
    have hstep : findFrom f prev (c :: (P' ++ R)) =
        (findFrom f (some c) (P' ++ R)).map (fun p => (p.1 + 1, p.2)) := by
      rw [findFrom_cons, hif]
    rw [List.cons_append, hstep, ih (some c) R h1, prevAfter_cons_eq]
    cases hr : findFrom f (prevAfter (some c) P') R with
    | none => simp
    | some p => simp [Nat.add_assoc]

/-- A fully failing scan has a clear region at every split. -/
theorem scanNone_of_none (f : List Char → Option α) :
    ∀ (P : List Char) (prev : Option Char) (R : List Char),
      findFrom f prev (P ++ R) = none → scanNone f prev P R := by
  intro P
  induction P with
  | nil => intro prev R _; exact scanNone_nil f prev R
  | cons c P' ih =>
    intro prev R h
    rw [List.cons_append, findFrom_cons] at h
    cases hif : (if wordBoundary prev then f (c :: (P' ++ R)) else none) with
    | some a => rw [hif] at h; simp at h
    | none =>
      rw [hif] at h
      have htail : findFrom f (some c) (P' ++ R) = none := by
        cases ht : findFrom f (some c) (P' ++ R) with
        | none => rfl
        | some p => rw [ht] at h; simp at h
      refine (scanNone_cons_iff f prev c P' R).2 ⟨fun hb => ?_, ih (some c) R htail⟩
      rw [hb] at hif
      simpa using hif

/-- A scan that found its match exactly at the end of `P` has a clear
region `P`. -/
theorem scanNone_of_found (f : List Char → Option α) :
    ∀ (P : List Char) (prev : Option Char) (R : List Char) (a : α),
      findFrom f prev (P ++ R) = some (P.length, a) → scanNone f prev P R := by
  intro P
  induction P with
  | nil => intro prev R a _; exact scanNone_nil f prev R
  | cons c P' ih =>
    intro prev R a h
    rw [List.cons_append, findFrom_cons] at h
    cases hif : (if wordBoundary prev then f (c :: (P' ++ R)) else none) with
    | some b =>
      exfalso
      rw [hif] at h
      simp only [Option.some.injEq, Prod.mk.injEq, List.length_cons] at h
      omega
    | none =>
      rw [hif] at h
      obtain ⟨p, hp, hpe⟩ : ∃ p, findFrom f (some c) (P' ++ R) = some p ∧
          ((p.1 + 1 : Nat), p.2) = ((c :: P').length, a) := by
        cases ht : findFrom f (some c) (P' ++ R) with
        | none => rw [ht] at h; simp at h
        | some p => rw [ht] at h; exact ⟨p, rfl, by simpa using h⟩
      obtain ⟨x, y⟩ := p
      simp only [List.length_cons, Prod.mk.injEq] at hpe
      obtain ⟨hx, hy⟩ := hpe
      have hx' : x = P'.length := by omega
      subst hx'
      subst hy
      refine (scanNone_cons_iff f prev c P' R).2 ⟨fun hb => ?_, ih (some c) R _ hp⟩
      rw [hb] at hif
      simpa using hif

/-- A scan that found its match exactly at the end of `P` did so at a
word boundary, with the anchored matcher succeeding there. -/
theorem findFrom_found_at (f : List Char → Option α) :
    ∀ (P : List Char) (prev : Option Char) (R : List Char) (a : α),
      findFrom f prev (P ++ R) = some (P.length, a) →
      wordBoundary (prevAfter prev P) = true ∧ f R = some a := by
  intro P
  induction P with
  | nil =>
    intro prev R a h
    simp only [List.nil_append, List.length_nil] at h
    cases R with
    | nil => simp [findFrom] at h
    | cons c cs =>
      rw [findFrom_cons] at h
      cases hif : (if wordBoundary prev then f (c :: cs) else none) with
      | some b =>
        rw [hif] at h
        simp only [Option.some.injEq, Prod.mk.injEq] at h
        cases hb : wordBoundary prev with
        | false => rw [hb] at hif; simp at hif
        | true =>
          rw [hb] at hif
          simp only [if_true] at hif
          refine ⟨by simpa [prevAfter] using hb, ?_⟩
          rw [hif, h.2]
      | none =>
        exfalso
        rw [hif] at h
        cases ht : findFrom f (some c) cs with
        | none => rw [ht] at h; simp at h
        | some p => rw [ht] at h; simp at h
  | cons c P' ih =>
    intro prev R a h
    rw [List.cons_append, findFrom_cons] at h
    cases hif : (if wordBoundary prev then f (c :: (P' ++ R)) else none) with
    | some b =>
      exfalso
      rw [hif] at h
      simp only [Option.some.injEq, Prod.mk.injEq, List.length_cons] at h
      omega
    | none =>
      rw [hif] at h
      obtain ⟨p, hp, hpe⟩ : ∃ p, findFrom f (some c) (P' ++ R) = some p ∧
          ((p.1 + 1 : Nat), p.2) = ((c :: P').length, a) := by
        cases ht : findFrom f (some c) (P' ++ R) with
        | none => rw [ht] at h; simp at h
        | some p => rw [ht] at h; exact ⟨p, rfl, by simpa using h⟩
      obtain ⟨x, y⟩ := p
      simp only [List.length_cons, Prod.mk.injEq] at hpe
      obtain ⟨hx, hy⟩ := hpe
      have hx' : x = P'.length := by omega
      subst hx'
      subst hy
      have := ih (some c) R _ hp
      rw [prevAfter_cons_eq]
      exact this

/-- A fully failing scan still fails on any suffix. -/
theorem findFrom_none_append (f : List Char → Option α) :
    ∀ (A : List Char) (prev : Option Char) (B : List Char),
      findFrom f prev (A ++ B) = none → findFrom f (prevAfter prev A) B = none := by
  intro A
  induction A with
  | nil => intro prev B h; simpa [prevAfter] using h
  | cons c A' ih =>
    intro prev B h
    rw [List.cons_append, findFrom_cons] at h
    cases hif : (if wordBoundary prev then f (c :: (A' ++ B)) else none) with
    | some a => rw [hif] at h; simp at h
    | none =>
      rw [hif] at h
      have htail : findFrom f (some c) (A' ++ B) = none := by
        cases ht : findFrom f (some c) (A' ++ B) with
        | none => rfl
        | some p => rw [ht] at h; simp at h
      rw [prevAfter_cons_eq]
      exact ih (some c) B htail

/-- A clear scan region stays clear when the seed character had a word
boundary. -/
theorem scanNone_mono_prev (f : List Char → Option α) (P R : List Char)
    (prev prev' : Option Char) (hb : wordBoundary prev = true)
    (h : scanNone f prev P R) : scanNone f prev' P R := by
  intro P1 c P2 hs hbd
  cases P1 with
  | nil => exact h [] c P2 hs (by simpa [prevAfter] using hb)
  | cons a t =>
    refine h (a :: t) c P2 hs ?_
    rw [prevAfter_cons_eq] at hbd ⊢
    exact hbd

/-- A one-character clear region. -/
theorem scanNone_singleton (f : List Char → Option α) (prev : Option Char) (x : Char)
    (R : List Char) (h : wordBoundary prev = true → f (x :: R) = none) :
    scanNone f prev [x] R := by
  intro P1 c P2 hs hb
  cases P1 with
  | nil =>
    simp only [List.nil_append] at hs
    injection hs with hc hP
    subst hc
    have : P2 = [] := hP.symm
    subst this
    exact h (by simpa [prevAfter] using hb)
  | cons a t =>
    exfalso
    simp only [List.cons_append] at hs
    injection hs with _ hP
    exact absurd hP.symm (by simp)

/-- Clear regions concatenate. -/
theorem scanNone_append (f : List Char → Option α) :
    ∀ (A : List Char) (prev : Option Char) (B R : List Char),
      scanNone f prev A (B ++ R) → scanNone f (prevAfter prev A) B R →
      scanNone f prev (A ++ B) R := by
  intro A
  induction A with
  | nil => intro prev B R _ h2; simpa [prevAfter] using h2
  | cons c A' ih =>
    intro prev B R h1 h2
    obtain ⟨h10, h11⟩ := (scanNone_cons_iff f prev c A' (B ++ R)).1 h1
    rw [prevAfter_cons_eq] at h2
    rw [List.cons_append]
    refine (scanNone_cons_iff f prev c (A' ++ B) R).2 ⟨fun hb => ?_, ih (some c) B R h11 h2⟩
    rw [List.append_assoc]
    exact h10 hb

/-- A match at the start of `R` after a clear region `P` is the leftmost
match of `P ++ R`. -/
theorem findPat_decomp (f : List Char → Option α) (P : List Char) (c : Char)
    (cs : List Char) (a : α) (hscan : scanNone f none P (c :: cs))
    (hb : wordBoundary (prevAfter none P) = true) (hf : f (c :: cs) = some a) :
    findPat f (P ++ c :: cs) = some (P.length, a) := by
  unfold findPat
  rw [findFrom_of_scanNone f P none (c :: cs) hscan]
  rw [findFrom_cons, hb]
  simp [hf]

/-! ## Match transfer across a replaced tail -/

/-- Append overlap: when the left part of one split is at least as long
as the other split's left part, it absorbs it. -/
theorem append_overlap {A B C D : List Char} (h : A ++ B = C ++ D)
    (hlen : C.length ≤ A.length) : ∃ E, A = C ++ E ∧ D = E ++ B := by
  rcases List.append_eq_append_iff.1 h with ⟨a', hC, hB⟩ | ⟨c', hA, hD⟩
  · have hlen2 : C.length = A.length + a'.length := by rw [hC]; simp
    have ha : a' = [] := List.length_eq_zero.mp (by omega)
    subst ha
    refine ⟨[], ?_, ?_⟩
    · simpa using hC.symm
    · simpa using hB.symm
  · exact ⟨c', hA, hD⟩

/-- The `limit` matcher fails on a string not starting with an `l`. -/
theorem matchLimitAt_cons_not_l (c : Char) (rest : List Char)
    (h : Char.toLower c ≠ 'l') : matchLimitAt (c :: rest) = none := by
  have hci : ciStarts ['l', 'i', 'm', 'i', 't'] (c :: rest) = false := by
    simp [ciStarts, h]
  unfold matchLimitAt
  rw [hci]
  simp

/-- The `select top` matcher fails on a string not starting with an `s`. -/
theorem matchTopAt_cons_not_s (c : Char) (rest : List Char)
    (h : Char.toLower c ≠ 's') : matchTopAt (c :: rest) = none := by
  have hci : ciStarts ['s', 'e', 'l', 'e', 'c', 't'] (c :: rest) = false := by
    simp [ciStarts, h]
  unfold matchTopAt
  rw [hci]
  simp

/-- The `select` whitespace matcher fails on a string not starting with
an `s`. -/
theorem matchSelAt_cons_not_s (c : Char) (rest : List Char)
    (h : Char.toLower c ≠ 's') : matchSelAt (c :: rest) = none := by
  have hci : ciStarts ['s', 'e', 'l', 'e', 'c', 't'] (c :: rest) = false := by
    simp [ciStarts, h]
  unfold matchSelAt
  rw [hci]
  simp

/-- Replacing the tail after a non-empty prefix by another tail that can
neither continue the `limit` word, nor host or continue its digit run,
preserves failure of the `limit` matcher at the prefix position. -/
theorem matchLimit_transfer (x R1 R2 : List Char) (hx : x ≠ [])
    (h1 : ∀ c, R2.head? = some c →
      Char.toLower c ≠ 'i' ∧ Char.toLower c ≠ 'm' ∧ Char.toLower c ≠ 't')
    (h2 : ∀ c, R2.head? = some c → Char.isDigit c = false)
    (h3 : ∀ c, (R2.dropWhile jsSpace).head? = some c → Char.isDigit c = false)
    (h4 : ∀ c, R1.head? = some c → Char.isDigit c = false)
    (hold : matchLimitAt (x ++ R1) = none) :
    matchLimitAt (x ++ R2) = none := by
  cases hnew : matchLimitAt (x ++ R2) with
  | none => rfl
  | some kv =>
    exfalso
    obtain ⟨w, sp, ds, rest, hE, hw5, hciw, hspne, hsp1, hdsne, hds1, hrest, hk, hv⟩ :=
      matchLimitAt_some (x ++ R2) kv.1 kv.2 (by rw [hnew])
    have hL : 5 + sp.length + ds.length ≤ x.length := by
      by_contra hgt
      push_neg at hgt
      rcases Nat.lt_or_ge x.length 5 with hn5 | hn5
      · have hE' : x ++ R2 = w ++ (sp ++ (ds ++ rest)) := by
          rw [hE]; simp [List.append_assoc]
        obtain ⟨E, hwE, hR2E⟩ := append_overlap hE'.symm (by omega)
        cases E with
        | nil =>
          have hlenw := congrArg List.length hwE
          simp at hlenw
          omega
        | cons c0 E' =>
          have hc0 : R2.head? = some c0 := by rw [hR2E]; rfl
          obtain ⟨hi', hm', ht'⟩ := h1 c0 hc0
          have hci2 : ciStarts ['l', 'i', 'm', 'i', 't'] (x ++ c0 :: E') = true := by
            rw [← hwE]; exact hciw
          rcases x with _ | ⟨a, _ | ⟨b, _ | ⟨c, _ | ⟨d, rest4⟩⟩⟩⟩
          · exact hx rfl
          · simp only [List.cons_append, List.nil_append, ciStarts, Bool.and_eq_true,
              decide_eq_true_eq] at hci2
            exact hi' hci2.2.1
          · simp only [List.cons_append, List.nil_append, ciStarts, Bool.and_eq_true,
              decide_eq_true_eq] at hci2
            exact hm' hci2.2.2.1
          · simp only [List.cons_append, List.nil_append, ciStarts, Bool.and_eq_true,
              decide_eq_true_eq] at hci2
            exact hi' hci2.2.2.2.1
          · cases rest4 with
            | nil =>
              simp only [List.cons_append, List.nil_append, ciStarts, Bool.and_eq_true,
                decide_eq_true_eq] at hci2
              exact ht' hci2.2.2.2.2.1
            | cons e tl =>
              simp only [List.length_cons] at hn5
              omega
      · rcases Nat.lt_or_ge x.length (5 + sp.length) with hnsp | hnsp
        · have hE' : x ++ R2 = (w ++ sp) ++ (ds ++ rest) := by
            rw [hE]; simp [List.append_assoc]
          obtain ⟨E, hwsE, hR2E⟩ := append_overlap hE'.symm (by simp; omega)
          cases E with
          | nil =>
            have hlenw := congrArg List.length hwsE
            simp at hlenw
            omega
          | cons c0 E' =>
            obtain ⟨F, hxF, hspF⟩ := append_overlap hwsE.symm (by omega)
            have hc0sp : ∀ c ∈ c0 :: E', jsSpace c = true := by
              intro c hc
              exact hsp1 c (by rw [hspF]; exact List.mem_append_right F hc)
            have hdw : R2.dropWhile jsSpace = ds ++ rest := by
              rw [hR2E]
              refine dropWhile_append_of _ _ _ hc0sp ?_
              intro c hc
              cases ds with
              | nil => exact absurd rfl hdsne
              | cons d dt =>
                simp only [List.cons_append, List.head?_cons, Option.some.injEq] at hc
                subst hc
                exact isDigit_not_jsSpace _ (hds1 _ (by simp))
            cases ds with
            | nil => exact absurd rfl hdsne
            | cons d dt =>
              have hdd : Char.isDigit d = false := h3 d (by rw [hdw]; rfl)
              have := hds1 d (by simp)
              rw [hdd] at this
              exact absurd this (by simp)
        · have hE' : x ++ R2 = ((w ++ sp) ++ ds) ++ rest := by
            rw [hE]
          obtain ⟨E, hwsdE, hR2E⟩ := append_overlap hE'.symm (by simp; omega)
          cases E with
          | nil =>
            have hlenw := congrArg List.length hwsdE
            simp at hlenw
            omega
          | cons c0 E' =>
            obtain ⟨F, hxF, hdsF⟩ := append_overlap hwsdE.symm (by simp; omega)
            have hc0 : R2.head? = some c0 := by rw [hR2E]; rfl
            have hdig : Char.isDigit c0 = true :=
              hds1 c0 (by rw [hdsF]; exact List.mem_append_right F (by simp))
            rw [h2 c0 hc0] at hdig
            exact absurd hdig (by simp)
    have hE2 : x ++ R2 = (w ++ sp ++ ds) ++ rest := by
      rw [hE]
    obtain ⟨y, hxy, hresty⟩ := append_overlap hE2 (by simp; omega)
    have hrestHead : ∀ c, (y ++ R1).head? = some c → Char.isDigit c = false := by
      intro c hc
      cases y with
      | nil => exact h4 c (by simpa using hc)
      | cons y0 yt =>
        simp only [List.cons_append, List.head?_cons, Option.some.injEq] at hc
        subst hc
        refine hrest _ ?_
        rw [hresty]
        rfl
    have hmatch := matchLimitAt_construct w sp ds (y ++ R1) hw5 hciw hspne hsp1 hdsne
      hds1 hrestHead
    have hxR1 : x ++ R1 = w ++ sp ++ ds ++ (y ++ R1) := by
      rw [hxy]
      simp [List.append_assoc]
    rw [hxR1, hmatch] at hold
    exact absurd hold (by simp)

/-- Replacing the tail after a non-empty prefix by another tail that can
neither continue the `select` or `top` words, nor host or continue the
whitespace-separated digit run, preserves failure of the `select top`
matcher at the prefix position. -/
theorem matchTop_transfer (x R1 R2 : List Char) (hx : x ≠ [])
    (ha : ∀ c, R2.head? = some c →
      Char.toLower c ≠ 'e' ∧ Char.toLower c ≠ 'l' ∧ Char.toLower c ≠ 'c' ∧
      Char.toLower c ≠ 't' ∧ Char.toLower c ≠ 'o' ∧ Char.toLower c ≠ 'p')
    (hb2 : ∀ c, R2.head? = some c → Char.isDigit c = false)
    (hc2 : ∀ c, (R2.dropWhile jsSpace).head? = some c →
      Char.toLower c ≠ 't' ∧ Char.isDigit c = false)
    (hd2 : ∀ c, R1.head? = some c → Char.isDigit c = false)
    (hold : matchTopAt (x ++ R1) = none) :
    matchTopAt (x ++ R2) = none := by
  cases hnew : matchTopAt (x ++ R2) with
  | none => rfl
  | some kv =>
    exfalso
    obtain ⟨w6, sp1, w3, sp2, ds, rest, hE, hw6, hciw6, hsp1ne, hsp1a, hw3, hciw3,
      hsp2ne, hsp2a, hdsne, hds1, hrest, hk, hv⟩ :=
      matchTopAt_some (x ++ R2) kv.1 kv.2 (by rw [hnew])
    have hL : 6 + sp1.length + 3 + sp2.length + ds.length ≤ x.length := by
      by_contra hgt
      push_neg at hgt
      rcases Nat.lt_or_ge x.length 6 with hn6 | hn6
      · have hE' : x ++ R2 = w6 ++ (sp1 ++ (w3 ++ (sp2 ++ (ds ++ rest)))) := by
          rw [hE]; simp [List.append_assoc]
        obtain ⟨E, hwE, hR2E⟩ := append_overlap hE'.symm (by omega)
        cases E with
        | nil =>
          have hlenw := congrArg List.length hwE
          simp at hlenw
          omega
        | cons c0 E' =>
          have hc0 : R2.head? = some c0 := by rw [hR2E]; rfl
          obtain ⟨he', hl', hcq', ht', ho', hp'⟩ := ha c0 hc0
          have hci2 : ciStarts ['s', 'e', 'l', 'e', 'c', 't'] (x ++ c0 :: E') = true := by
            rw [← hwE]; exact hciw6
          rcases x with _ | ⟨a, _ | ⟨b, _ | ⟨c, _ | ⟨d, _ | ⟨e, rest5⟩⟩⟩⟩⟩
          · exact hx rfl
          · simp only [List.cons_append, List.nil_append, ciStarts, Bool.and_eq_true,
              decide_eq_true_eq] at hci2
            exact he' hci2.2.1
          · simp only [List.cons_append, List.nil_append, ciStarts, Bool.and_eq_true,
              decide_eq_true_eq] at hci2
            exact hl' hci2.2.2.1
          · simp only [List.cons_append, List.nil_append, ciStarts, Bool.and_eq_true,
              decide_eq_true_eq] at hci2
            exact he' hci2.2.2.2.1
          · simp only [List.cons_append, List.nil_append, ciStarts, Bool.and_eq_true,
              decide_eq_true_eq] at hci2
            exact hcq' hci2.2.2.2.2.1
          · cases rest5 with
            | nil =>
              simp only [List.cons_append, List.nil_append, ciStarts, Bool.and_eq_true,
                decide_eq_true_eq] at hci2
              exact ht' hci2.2.2.2.2.2.1
            | cons g tl =>
              simp only [List.length_cons] at hn6
              omega
      · rcases Nat.lt_or_ge x.length (6 + sp1.length) with hns1 | hns1
        · have hE' : x ++ R2 = (w6 ++ sp1) ++ (w3 ++ (sp2 ++ (ds ++ rest))) := by
            rw [hE]; simp [List.append_assoc]
          obtain ⟨E, hwsE, hR2E⟩ := append_overlap hE'.symm (by simp; omega)
          cases E with
          | nil =>
            have hlenw := congrArg List.length hwsE
            simp at hlenw
            omega
          | cons c0 E' =>
            obtain ⟨F, hxF, hspF⟩ := append_overlap hwsE.symm (by omega)
            have hc0sp : ∀ c ∈ c0 :: E', jsSpace c = true := by
              intro c hc
              exact hsp1a c (by rw [hspF]; exact List.mem_append_right F hc)
            cases w3 with
            | nil => simp at hw3
            | cons t0 tt =>
              have ht0 : Char.toLower t0 = 't' := by
                simp only [ciStarts, Bool.and_eq_true, decide_eq_true_eq] at hciw3
                exact hciw3.1
              have hdw : R2.dropWhile jsSpace = (t0 :: tt) ++ (sp2 ++ (ds ++ rest)) := by
                rw [hR2E]
                refine dropWhile_append_of _ _ _ hc0sp ?_
                intro c hc
                simp only [List.cons_append, List.head?_cons, Option.some.injEq] at hc
                subst hc
                exact jsSpace_false_of_toLower _ 't' ht0 (by decide)
              have := (hc2 t0 (by rw [hdw]; rfl)).1
              exact this ht0
        · rcases Nat.lt_or_ge x.length (6 + sp1.length + 3) with hnw3 | hnw3
          · have hE' : x ++ R2 = ((w6 ++ sp1) ++ w3) ++ (sp2 ++ (ds ++ rest)) := by
              rw [hE]; simp [List.append_assoc]
            obtain ⟨E, hwsE, hR2E⟩ := append_overlap hE'.symm (by simp; omega)
            cases E with
            | nil =>
              have hlenw := congrArg List.length hwsE
              simp at hlenw
              omega
            | cons c0 E' =>
              obtain ⟨F, hxF, hw3F⟩ := append_overlap hwsE.symm (by simp; omega)
              have hc0 : R2.head? = some c0 := by rw [hR2E]; rfl
              obtain ⟨he', hl', hcq', ht', ho', hp'⟩ := ha c0 hc0
              have hlF : F.length + (c0 :: E').length = 3 := by
                have := congrArg List.length hw3F
                simp at this
                simp only [List.length_cons]
                omega
              rcases F with _ | ⟨a, _ | ⟨b, _ | ⟨g2, rest3⟩⟩⟩
              · rw [List.nil_append] at hw3F
                rw [hw3F] at hciw3
                simp only [ciStarts, Bool.and_eq_true, decide_eq_true_eq] at hciw3
                exact ht' hciw3.1
              · rw [hw3F] at hciw3
                simp only [List.cons_append, List.nil_append, ciStarts, Bool.and_eq_true,
                  decide_eq_true_eq] at hciw3
                exact ho' hciw3.2.1
              · rw [hw3F] at hciw3
                simp only [List.cons_append, List.nil_append, ciStarts, Bool.and_eq_true,
                  decide_eq_true_eq] at hciw3
                exact hp' hciw3.2.2.1
              · simp only [List.length_cons] at hlF
                omega
          · rcases Nat.lt_or_ge x.length (6 + sp1.length + 3 + sp2.length) with hns2 | hns2
            · have hE' : x ++ R2 = (((w6 ++ sp1) ++ w3) ++ sp2) ++ (ds ++ rest) := by
                rw [hE]; simp [List.append_assoc]
              obtain ⟨E, hwsE, hR2E⟩ := append_overlap hE'.symm (by simp; omega)
              cases E with
              | nil =>
                have hlenw := congrArg List.length hwsE
                simp at hlenw
                omega
              | cons c0 E' =>
                obtain ⟨F, hxF, hspF⟩ := append_overlap hwsE.symm (by simp; omega)
                have hc0sp : ∀ c ∈ c0 :: E', jsSpace c = true := by
                  intro c hc
                  exact hsp2a c (by rw [hspF]; exact List.mem_append_right F hc)
                have hdw : R2.dropWhile jsSpace = ds ++ rest := by
                  rw [hR2E]
                  refine dropWhile_append_of _ _ _ hc0sp ?_
                  intro c hc
                  cases ds with
                  | nil => exact absurd rfl hdsne
                  | cons d dt =>
                    simp only [List.cons_append, List.head?_cons, Option.some.injEq] at hc
                    subst hc
                    exact isDigit_not_jsSpace _ (hds1 _ (by simp))
                cases ds with
                | nil => exact absurd rfl hdsne
                | cons d dt =>
                  have hdd : Char.isDigit d = false := (hc2 d (by rw [hdw]; rfl)).2
                  have := hds1 d (by simp)
                  rw [hdd] at this
                  exact absurd this (by simp)
            · have hE' : x ++ R2 = ((((w6 ++ sp1) ++ w3) ++ sp2) ++ ds) ++ rest := by
                rw [hE]
              obtain ⟨E, hwsE, hR2E⟩ := append_overlap hE'.symm (by simp; omega)
              cases E with
              | nil =>
                have hlenw := congrArg List.length hwsE
                simp at hlenw
                omega
              | cons c0 E' =>
                obtain ⟨F, hxF, hdsF⟩ := append_overlap hwsE.symm (by simp; omega)
                have hc0 : R2.head? = some c0 := by rw [hR2E]; rfl
                have hdig : Char.isDigit c0 = true :=
                  hds1 c0 (by rw [hdsF]; exact List.mem_append_right F (by simp))
                rw [hb2 c0 hc0] at hdig
                exact absurd hdig (by simp)
    have hE2 : x ++ R2 = (w6 ++ sp1 ++ w3 ++ sp2 ++ ds) ++ rest := by
      rw [hE]
    obtain ⟨y, hxy, hresty⟩ := append_overlap hE2 (by simp; omega)
    have hrestHead : ∀ c, (y ++ R1).head? = some c → Char.isDigit c = false := by
      intro c hc
      cases y with
      | nil => exact hd2 c (by simpa using hc)
      | cons y0 yt =>
        simp only [List.cons_append, List.head?_cons, Option.some.injEq] at hc
        subst hc
        refine hrest _ ?_
        rw [hresty]
        rfl
    have hmatch := matchTopAt_construct w6 sp1 w3 sp2 ds (y ++ R1) hw6 hciw6 hsp1ne hsp1a
      hw3 hciw3 hsp2ne hsp2a hdsne hds1 hrestHead
    have hxR1 : x ++ R1 = w6 ++ sp1 ++ w3 ++ sp2 ++ ds ++ (y ++ R1) := by
      rw [hxy]
      simp [List.append_assoc]
    rw [hxR1, hmatch] at hold
    exact absurd hold (by simp)

/-! ## Row-cap rewriter assembly -/

/-- Take of the prefix around a replaced middle segment. -/
theorem take_mid (P M Q : List Char) : (P ++ M ++ Q).take P.length = P := by
  rw [List.append_assoc]
  exact List.take_left P (M ++ Q)

/-- Drop past a replaced middle segment. -/
theorem drop_mid (P M Q : List Char) : (P ++ M ++ Q).drop (P.length + M.length) = Q := by
  rw [List.append_assoc]
  have h : P.length + M.length = (P ++ M).length := (List.length_append P M).symm
  rw [h, ← List.append_assoc]
  exact List.drop_left (P ++ M) Q

/-- A found scan position is inside the string. -/
theorem findFrom_found_lt (f : List Char → Option α) :
    ∀ (l : List Char) (prev : Option Char) (i : Nat) (a : α),
      findFrom f prev l = some (i, a) → i < l.length := by
  intro l
  induction l with
  | nil => intro prev i a h; simp [findFrom] at h
  | cons c cs ih =>
    intro prev i a h
    rw [findFrom_cons] at h
    cases hif : (if wordBoundary prev then f (c :: cs) else none) with
    | some b =>
      rw [hif] at h
      simp only [Option.some.injEq, Prod.mk.injEq] at h
      simp only [List.length_cons]
      omega
    | none =>
      rw [hif] at h
      cases ht : findFrom f (some c) cs with
      | none => rw [ht] at h; simp at h
      | some p =>
        rw [ht] at h
        simp only [Option.map_some', Option.some.injEq, Prod.mk.injEq] at h
        have := ih (some c) p.1 p.2 (by rw [ht])
        simp only [List.length_cons]
        omega

/-- Transfer of a clear `limit` scan region across a tail replacement. -/
theorem scanNone_transfer_limit (prev : Option Char) (P R1 R2 : List Char)
    (h1 : ∀ c, R2.head? = some c →
      Char.toLower c ≠ 'i' ∧ Char.toLower c ≠ 'm' ∧ Char.toLower c ≠ 't')
    (h2 : ∀ c, R2.head? = some c → Char.isDigit c = false)
    (h3 : ∀ c, (R2.dropWhile jsSpace).head? = some c → Char.isDigit c = false)
    (h4 : ∀ c, R1.head? = some c → Char.isDigit c = false)
    (h : scanNone matchLimitAt prev P R1) : scanNone matchLimitAt prev P R2 := by
  intro P1 c P2 hs hbd
  exact matchLimit_transfer (c :: P2) R1 R2 (by simp) h1 h2 h3 h4 (h P1 c P2 hs hbd)

/-- Transfer of a clear `select top` scan region across a tail
replacement. -/
theorem scanNone_transfer_top (prev : Option Char) (P R1 R2 : List Char)
    (ha : ∀ c, R2.head? = some c →
      Char.toLower c ≠ 'e' ∧ Char.toLower c ≠ 'l' ∧ Char.toLower c ≠ 'c' ∧
      Char.toLower c ≠ 't' ∧ Char.toLower c ≠ 'o' ∧ Char.toLower c ≠ 'p')
    (hb2 : ∀ c, R2.head? = some c → Char.isDigit c = false)
    (hc2 : ∀ c, (R2.dropWhile jsSpace).head? = some c →
      Char.toLower c ≠ 't' ∧ Char.isDigit c = false)
    (hd2 : ∀ c, R1.head? = some c → Char.isDigit c = false)
    (h : scanNone matchTopAt prev P R1) : scanNone matchTopAt prev P R2 := by
  intro P1 c P2 hs hbd
  exact matchTop_transfer (c :: P2) R1 R2 (by simp) ha hb2 hc2 hd2 (h P1 c P2 hs hbd)

/-- The anchored `limit` matcher on a freshly written `LIMIT c` clause. -/
theorem matchLimitAt_LIMIT (c : Nat) (Q : List Char)
    (hQ : ∀ ch, Q.head? = some ch → Char.isDigit ch = false) :
    matchLimitAt (['L', 'I', 'M', 'I', 'T', ' '] ++ natDigits c ++ Q) =
      some (6 + (natDigits c).length, c) := by
  have h := matchLimitAt_construct ['L', 'I', 'M', 'I', 'T'] [' '] (natDigits c) Q
    (by decide) (by decide) (by simp) (by decide) (natDigits_ne_nil c)
    (natDigits_all_digit c) hQ
  rw [parseDigits_natDigits] at h
  exact h

/-- The anchored `select top` matcher on a freshly written
`SELECT TOP c` clause. -/
theorem matchTopAt_SELECTTOP (c : Nat) (Q : List Char)
    (hQ : ∀ ch, Q.head? = some ch → Char.isDigit ch = false) :
    matchTopAt (['S', 'E', 'L', 'E', 'C', 'T', ' ', 'T', 'O', 'P', ' '] ++ natDigits c ++ Q) =
      some (11 + (natDigits c).length, c) := by
  have h := matchTopAt_construct ['S', 'E', 'L', 'E', 'C', 'T'] [' '] ['T', 'O', 'P'] [' ']
    (natDigits c) Q (by decide) (by decide) (by simp) (by decide) (by decide) (by decide)
    (by simp) (by decide) (natDigits_ne_nil c) (natDigits_all_digit c) hQ
  rw [parseDigits_natDigits] at h
  exact h

/-- JS `trim` decomposition: the original is whitespace, then the trim,
then whitespace. -/
theorem jsTrim_decomp (l : List Char) :
    ∃ lead trail, l = lead ++ jsTrim l ++ trail ∧
      (∀ c ∈ lead, jsSpace c = true) ∧ (∀ c ∈ trail, jsSpace c = true) := by
  refine ⟨l.takeWhile jsSpace, ((l.dropWhile jsSpace).reverse.takeWhile jsSpace).reverse,
    ?_, ?_, ?_⟩
  · have h1 : l = l.takeWhile jsSpace ++ l.dropWhile jsSpace :=
      (List.takeWhile_append_dropWhile jsSpace l).symm
    have h3 : (l.dropWhile jsSpace).reverse =
        (l.dropWhile jsSpace).reverse.takeWhile jsSpace ++
          (l.dropWhile jsSpace).reverse.dropWhile jsSpace :=
      (List.takeWhile_append_dropWhile _ _).symm
    have h2 : l.dropWhile jsSpace =
        jsTrim l ++ ((l.dropWhile jsSpace).reverse.takeWhile jsSpace).reverse := by
      unfold jsTrim
      calc l.dropWhile jsSpace
          = (l.dropWhile jsSpace).reverse.reverse := (List.reverse_reverse _).symm
        _ = ((l.dropWhile jsSpace).reverse.takeWhile jsSpace ++
              (l.dropWhile jsSpace).reverse.dropWhile jsSpace).reverse := by rw [← h3]
        _ = ((l.dropWhile jsSpace).reverse.dropWhile jsSpace).reverse ++
              ((l.dropWhile jsSpace).reverse.takeWhile jsSpace).reverse := by
              rw [List.reverse_append]
    rw [List.append_assoc, ← h2, ← h1]
  · intro c hc
    exact List.mem_takeWhile_imp hc
  · intro c hc
    rw [List.mem_reverse] at hc
    exact List.mem_takeWhile_imp hc

/-- A list whose last element is known splits off that element. -/
theorem eq_dropLast_concat (l : List Char) (x : Char) (h : l.getLast? = some x) :
    l = l.dropLast ++ [x] := by
  have hne : l ≠ [] := by intro he; subst he; simp at h
  have h2 := List.dropLast_concat_getLast hne
  rw [List.getLast?_eq_getLast l hne, Option.some.injEq] at h
  rw [h] at h2
  exact h2.symm

/-- A word boundary holds after any run of whitespace (or at a string
start). -/
theorem wordBoundary_after_spaces (lead : List Char)
    (h : ∀ c ∈ lead, jsSpace c = true) :
    wordBoundary (prevAfter none lead) = true := by
  cases hg : lead.getLast? with
  | none =>
    have hpa : prevAfter none lead = none := by unfold prevAfter; rw [hg]
    rw [hpa]
    rfl
  | some g =>
    have hpa : prevAfter none lead = some g := by unfold prevAfter; rw [hg]
    have hmem : g ∈ lead := by
      rw [eq_dropLast_concat lead g hg]
      simp
    rw [hpa]
    show (!isWordChar g) = true
    rw [jsSpace_not_word _ (h _ hmem)]
    rfl

/-- A positive row cap is truthy. -/
theorem isFalsyNat_pos (m : Nat) (h : 0 < m) : isFalsyNat (some m) = false := by
  cases m with
  | zero => omega
  | succ k => rfl

/-- Rewriting a query that already has a LIMIT cap `e` replaces the cap
in place by `min e m`, and the first LIMIT match of the result is the
fresh clause at the same position. -/
theorem applyLimitToQuery_found (sql : List Char) (m i k e : Nat)
    (hfind : findPat matchLimitAt sql = some (i, (k, e))) :
    findPat matchLimitAt (applyLimitToQuery sql m) =
      some (i, (6 + (natDigits (min e m)).length, min e m)) ∧
    applyLimitToQuery sql m = sql.take i ++
      (['L', 'I', 'M', 'I', 'T', ' '] ++ natDigits (min e m)) ++ sql.drop (i + k) := by
  have hi : i < sql.length := findFrom_found_lt matchLimitAt sql none i (k, e) hfind
  have hPlen : (sql.take i).length = i := by
    simp only [List.length_take]
    omega
  have hsplit : sql.take i ++ sql.drop i = sql := List.take_append_drop i sql
  have hfind' : findFrom matchLimitAt none (sql.take i ++ sql.drop i) =
      some ((sql.take i).length, (k, e)) := by
    rw [hsplit, hPlen]
    exact hfind
  have hscan := scanNone_of_found matchLimitAt (sql.take i) none (sql.drop i) (k, e) hfind'
  obtain ⟨hbound, hmatch⟩ :=
    findFrom_found_at matchLimitAt (sql.take i) none (sql.drop i) (k, e) hfind'
  obtain ⟨w, sp, ds, rest, hE, hw5, hciw, hspne, hsp1, hdsne, hds1, hrest, hk, hv⟩ :=
    matchLimitAt_some (sql.drop i) k e hmatch
  have hdropk : sql.drop (i + k) = rest := by
    rw [← List.drop_drop k i sql, hE]
    have hkM : k = (w ++ sp ++ ds).length := by
      simp only [List.length_append]
      omega
    rw [hkM]
    exact List.drop_left _ _
  have hex : extractLimitValue sql = some e := by
    unfold extractLimitValue
    rw [hfind]
    rfl
  have happ : applyLimitToQuery sql m =
      sql.take i ++ (['L', 'I', 'M', 'I', 'T', ' '] ++ natDigits (min e m)) ++
        sql.drop (i + k) := by
    unfold applyLimitToQuery
    rw [hex]
    show replaceLimit sql (['L', 'I', 'M', 'I', 'T', ' '] ++ natDigits (min e m)) = _
    unfold replaceLimit
    rw [hfind]
  have h4R1 : ∀ c, (sql.drop i).head? = some c → Char.isDigit c = false := by
    intro c hc
    rw [hE] at hc
    cases w with
    | nil => simp at hw5
    | cons w0 wt =>
      simp only [List.cons_append, List.head?_cons, Option.some.injEq] at hc
      subst hc
      simp only [ciStarts, Bool.and_eq_true, decide_eq_true_eq] at hciw
      exact isDigit_false_of_toLower _ 'l' hciw.1 (by decide)
  have hscan2 : scanNone matchLimitAt none (sql.take i)
      (['L', 'I', 'M', 'I', 'T', ' '] ++ natDigits (min e m) ++ rest) := by
    refine scanNone_transfer_limit none (sql.take i) (sql.drop i) _ ?_ ?_ ?_ h4R1 hscan
    · intro c hc
      simp only [List.cons_append, List.head?_cons, Option.some.injEq] at hc
      subst hc
      refine ⟨by decide, by decide, by decide⟩
    · intro c hc
      simp only [List.cons_append, List.head?_cons, Option.some.injEq] at hc
      subst hc
      decide
    · intro c hc
      have hdw : (['L', 'I', 'M', 'I', 'T', ' '] ++ natDigits (min e m) ++ rest).dropWhile
          jsSpace = 'L' :: (['I', 'M', 'I', 'T', ' '] ++ natDigits (min e m) ++ rest) := by
        show ('L' :: (['I', 'M', 'I', 'T', ' '] ++ natDigits (min e m) ++ rest)).dropWhile
            jsSpace = _
        rw [List.dropWhile_cons_of_neg (by decide)]
      rw [hdw] at hc
      simp only [List.head?_cons, Option.some.injEq] at hc
      subst hc
      decide
  have hfreshmatch := matchLimitAt_LIMIT (min e m) rest hrest
  have hfp2 : findPat matchLimitAt
      (sql.take i ++ (['L', 'I', 'M', 'I', 'T', ' '] ++ natDigits (min e m) ++ rest)) =
      some ((sql.take i).length, (6 + (natDigits (min e m)).length, min e m)) :=
    findPat_decomp matchLimitAt (sql.take i) 'L'
      (['I', 'M', 'I', 'T', ' '] ++ natDigits (min e m) ++ rest)
      (6 + (natDigits (min e m)).length, min e m) hscan2 hbound hfreshmatch
  refine ⟨?_, happ⟩
  rw [happ, hdropk]
  have hassoc : sql.take i ++ (['L', 'I', 'M', 'I', 'T', ' '] ++ natDigits (min e m)) ++ rest =
      sql.take i ++ (['L', 'I', 'M', 'I', 'T', ' '] ++ natDigits (min e m) ++ rest) := by
    simp [List.append_assoc]
  rw [hassoc, hfp2, hPlen]

/-- A second rewrite with a same-or-larger cap rewrites the fresh LIMIT
clause with itself. -/
theorem applyLimit_idem_step (s1 P Q : List Char) (cv m' : Nat) (hcv : cv ≤ m')
    (hs1 : s1 = P ++ (['L', 'I', 'M', 'I', 'T', ' '] ++ natDigits cv) ++ Q)
    (hfind : findPat matchLimitAt s1 = some (P.length, (6 + (natDigits cv).length, cv))) :
    applyLimitToQuery s1 m' = s1 := by
  have hex : extractLimitValue s1 = some cv := by
    unfold extractLimitValue
    rw [hfind]
    rfl
  unfold applyLimitToQuery
  rw [hex]
  show replaceLimit s1 (['L', 'I', 'M', 'I', 'T', ' '] ++ natDigits (min cv m')) = s1
  rw [Nat.min_eq_left hcv]
  unfold replaceLimit
  rw [hfind]
  show s1.take P.length ++ (['L', 'I', 'M', 'I', 'T', ' '] ++ natDigits cv) ++
      s1.drop (P.length + (6 + (natDigits cv).length)) = s1
  have hlen : (6 + (natDigits cv).length : Nat) =
      (['L', 'I', 'M', 'I', 'T', ' '] ++ natDigits cv).length := by
    simp
    omega
  rw [hlen, hs1, take_mid, drop_mid]

/-- Rewriting a query with no LIMIT clause appends a fresh LIMIT clause
before any trailing semicolon, and the first LIMIT match of the result
is that clause. -/
theorem applyLimitToQuery_none_shape (sql : List Char) (m : Nat)
    (hnone : findPat matchLimitAt sql = none) :
    ∃ P semi, (semi = ([] : List Char) ∨ semi = [';']) ∧
      applyLimitToQuery sql m =
        (P ++ [' ']) ++ (['L', 'I', 'M', 'I', 'T', ' '] ++ natDigits m) ++ semi ∧
      findPat matchLimitAt (applyLimitToQuery sql m) =
        some ((P ++ [' ']).length, (6 + (natDigits m).length, m)) := by
  obtain ⟨lead, trail, hdec, hlead, htrail⟩ := jsTrim_decomp sql
  have hex : extractLimitValue sql = none := by
    unfold extractLimitValue
    rw [hnone]
    rfl
  have hnone' : findFrom matchLimitAt none sql = none := hnone
  have hwb : wordBoundary (prevAfter none lead) = true := wordBoundary_after_spaces lead hlead
  by_cases hsemi : (jsTrim sql).getLast? = some ';'
  · have hT : jsTrim sql = (jsTrim sql).dropLast ++ [';'] :=
      eq_dropLast_concat _ _ hsemi
    have happ : applyLimitToQuery sql m =
        (jsTrim sql).dropLast ++ [' ', 'L', 'I', 'M', 'I', 'T', ' '] ++ natDigits m ++ [';'] := by
      unfold applyLimitToQuery
      rw [hex]
      show (if (jsTrim sql).getLast? = some ';' then (jsTrim sql).dropLast else jsTrim sql) ++
          [' ', 'L', 'I', 'M', 'I', 'T', ' '] ++ natDigits m ++
          (if (jsTrim sql).getLast? = some ';' then [';'] else []) = _
      rw [if_pos hsemi, if_pos hsemi]
    have hsql2 : sql = lead ++ ((jsTrim sql).dropLast ++ ([';'] ++ trail)) := by
      conv_lhs => rw [hdec]
      conv_lhs => rw [hT]
      simp [List.append_assoc]
    have hn1 : findFrom matchLimitAt none
        (lead ++ ((jsTrim sql).dropLast ++ ([';'] ++ trail))) = none := by
      rw [← hsql2]
      exact hnone'
    have hn2 := findFrom_none_append matchLimitAt lead none
      ((jsTrim sql).dropLast ++ ([';'] ++ trail)) hn1
    have hscan1 := scanNone_of_none matchLimitAt (jsTrim sql).dropLast
      (prevAfter none lead) ([';'] ++ trail) hn2
    have hscan2 : scanNone matchLimitAt (prevAfter none lead) (jsTrim sql).dropLast
        ([' '] ++ (['L', 'I', 'M', 'I', 'T', ' '] ++ natDigits m ++ [';'])) := by
      refine scanNone_transfer_limit _ _ ([';'] ++ trail) _ ?_ ?_ ?_ ?_ hscan1
      · intro c hc
        simp only [List.cons_append, List.singleton_append, List.head?_cons,
          Option.some.injEq] at hc
        subst hc
        refine ⟨by decide, by decide, by decide⟩
      · intro c hc
        simp only [List.cons_append, List.singleton_append, List.head?_cons,
          Option.some.injEq] at hc
        subst hc
        decide
      · intro c hc
        have hdw : ([' '] ++ (['L', 'I', 'M', 'I', 'T', ' '] ++ natDigits m ++ [';'])).dropWhile
            jsSpace = 'L' :: (['I', 'M', 'I', 'T', ' '] ++ natDigits m ++ [';']) := by
          show (' ' :: ('L' :: (['I', 'M', 'I', 'T', ' '] ++ natDigits m ++ [';']))).dropWhile
              jsSpace = _
          rw [List.dropWhile_cons_of_pos (by decide), List.dropWhile_cons_of_neg (by decide)]
        rw [hdw] at hc
        simp only [List.head?_cons, Option.some.injEq] at hc
        subst hc
        decide
      · intro c hc
        simp only [List.cons_append, List.singleton_append, List.head?_cons,
          Option.some.injEq] at hc
        subst hc
        decide
    have hscan3 := scanNone_mono_prev matchLimitAt (jsTrim sql).dropLast
      ([' '] ++ (['L', 'I', 'M', 'I', 'T', ' '] ++ natDigits m ++ [';']))
      (prevAfter none lead) none hwb hscan2
    have hsingle : scanNone matchLimitAt (prevAfter none (jsTrim sql).dropLast) [' ']
        (['L', 'I', 'M', 'I', 'T', ' '] ++ natDigits m ++ [';']) :=
      scanNone_singleton _ _ _ _ (fun _ => matchLimitAt_cons_not_l ' ' _ (by decide))
    have hscan4 := scanNone_append matchLimitAt (jsTrim sql).dropLast none [' ']
      (['L', 'I', 'M', 'I', 'T', ' '] ++ natDigits m ++ [';']) hscan3 hsingle
    have hb : wordBoundary (prevAfter none ((jsTrim sql).dropLast ++ [' '])) = true := by
      rw [prevAfter_concat]
      decide
    have hm2 := matchLimitAt_LIMIT m [';']
      (by intro ch hch; simp at hch; subst hch; decide)
    have hfp : findPat matchLimitAt
        (((jsTrim sql).dropLast ++ [' ']) ++
          (['L', 'I', 'M', 'I', 'T', ' '] ++ natDigits m) ++ [';']) =
        some (((jsTrim sql).dropLast ++ [' ']).length, (6 + (natDigits m).length, m)) := by
      have heq : ((jsTrim sql).dropLast ++ [' ']) ++
          (['L', 'I', 'M', 'I', 'T', ' '] ++ natDigits m) ++ [';'] =
          ((jsTrim sql).dropLast ++ [' ']) ++
            ('L' :: (['I', 'M', 'I', 'T', ' '] ++ natDigits m ++ [';'])) := by
        simp [List.append_assoc]
      rw [heq]
      exact findPat_decomp matchLimitAt ((jsTrim sql).dropLast ++ [' ']) 'L'
        (['I', 'M', 'I', 'T', ' '] ++ natDigits m ++ [';']) (6 + (natDigits m).length, m)
        hscan4 hb hm2
    refine ⟨(jsTrim sql).dropLast, [';'], Or.inr rfl, ?_, ?_⟩
    · rw [happ]
      simp [List.append_assoc]
    · have hshape : applyLimitToQuery sql m =
          ((jsTrim sql).dropLast ++ [' ']) ++
            (['L', 'I', 'M', 'I', 'T', ' '] ++ natDigits m) ++ [';'] := by
        rw [happ]
        simp [List.append_assoc]
      rw [hshape]
      exact hfp
  · have happ : applyLimitToQuery sql m =
        jsTrim sql ++ [' ', 'L', 'I', 'M', 'I', 'T', ' '] ++ natDigits m := by
      unfold applyLimitToQuery
      rw [hex]
      show (if (jsTrim sql).getLast? = some ';' then (jsTrim sql).dropLast else jsTrim sql) ++
          [' ', 'L', 'I', 'M', 'I', 'T', ' '] ++ natDigits m ++
          (if (jsTrim sql).getLast? = some ';' then [';'] else []) = _
      rw [if_neg hsemi, if_neg hsemi]
      simp
    have hsql2 : sql = lead ++ (jsTrim sql ++ trail) := by
      conv_lhs => rw [hdec]
      simp [List.append_assoc]
    have hn1 : findFrom matchLimitAt none (lead ++ (jsTrim sql ++ trail)) = none := by
      rw [← hsql2]
      exact hnone'
    have hn2 := findFrom_none_append matchLimitAt lead none (jsTrim sql ++ trail) hn1
    have hscan1 := scanNone_of_none matchLimitAt (jsTrim sql)
      (prevAfter none lead) trail hn2
    have hscan2 : scanNone matchLimitAt (prevAfter none lead) (jsTrim sql)
        ([' '] ++ (['L', 'I', 'M', 'I', 'T', ' '] ++ natDigits m ++ [])) := by
      refine scanNone_transfer_limit _ _ trail _ ?_ ?_ ?_ ?_ hscan1
      · intro c hc
        simp only [List.cons_append, List.singleton_append, List.head?_cons,
          Option.some.injEq] at hc
        subst hc
        refine ⟨by decide, by decide, by decide⟩
      · intro c hc
        simp only [List.cons_append, List.singleton_append, List.head?_cons,
          Option.some.injEq] at hc
        subst hc
        decide
      · intro c hc
        have hdw : ([' '] ++ (['L', 'I', 'M', 'I', 'T', ' '] ++ natDigits m ++ [])).dropWhile
            jsSpace = 'L' :: (['I', 'M', 'I', 'T', ' '] ++ natDigits m ++ []) := by
          show (' ' :: ('L' :: (['I', 'M', 'I', 'T', ' '] ++ natDigits m ++ []))).dropWhile
              jsSpace = _
          rw [List.dropWhile_cons_of_pos (by decide), List.dropWhile_cons_of_neg (by decide)]
        rw [hdw] at hc
        simp only [List.head?_cons, Option.some.injEq] at hc
        subst hc
        decide
      · intro c hc
        cases trail with
        | nil => simp at hc
        | cons t0 tt =>
          simp only [List.head?_cons, Option.some.injEq] at hc
          subst hc
          exact jsSpace_not_isDigit _ (htrail _ (by simp))
    have hscan3 := scanNone_mono_prev matchLimitAt (jsTrim sql)
      ([' '] ++ (['L', 'I', 'M', 'I', 'T', ' '] ++ natDigits m ++ []))
      (prevAfter none lead) none hwb hscan2
    have hsingle : scanNone matchLimitAt (prevAfter none (jsTrim sql)) [' ']
        (['L', 'I', 'M', 'I', 'T', ' '] ++ natDigits m ++ []) :=
      scanNone_singleton _ _ _ _ (fun _ => matchLimitAt_cons_not_l ' ' _ (by decide))
    have hscan4 := scanNone_append matchLimitAt (jsTrim sql) none [' ']
      (['L', 'I', 'M', 'I', 'T', ' '] ++ natDigits m ++ []) hscan3 hsingle
    have hb : wordBoundary (prevAfter none (jsTrim sql ++ [' '])) = true := by
      rw [prevAfter_concat]
      decide
    have hm2 := matchLimitAt_LIMIT m [] (by intro ch hch; simp at hch)
    have hfp : findPat matchLimitAt
        ((jsTrim sql ++ [' ']) ++ (['L', 'I', 'M', 'I', 'T', ' '] ++ natDigits m) ++ []) =
        some ((jsTrim sql ++ [' ']).length, (6 + (natDigits m).length, m)) := by
      have heq : (jsTrim sql ++ [' ']) ++ (['L', 'I', 'M', 'I', 'T', ' '] ++ natDigits m) ++ [] =
          (jsTrim sql ++ [' ']) ++ ('L' :: (['I', 'M', 'I', 'T', ' '] ++ natDigits m ++ [])) := by
        simp [List.append_assoc]
      rw [heq]
      exact findPat_decomp matchLimitAt (jsTrim sql ++ [' ']) 'L'
        (['I', 'M', 'I', 'T', ' '] ++ natDigits m ++ []) (6 + (natDigits m).length, m)
        hscan4 hb hm2
    refine ⟨jsTrim sql, [], Or.inl rfl, ?_, ?_⟩
    · rw [happ]
      simp [List.append_assoc]
    · have hshape : applyLimitToQuery sql m =
          (jsTrim sql ++ [' ']) ++ (['L', 'I', 'M', 'I', 'T', ' '] ++ natDigits m) ++ [] := by
        rw [happ]
        simp [List.append_assoc]
      rw [hshape]
      exact hfp

/-- Rewriting a query that already has a `SELECT TOP` cap `e` replaces
the cap in place by `min e m`, and the first TOP match of the result is
the fresh clause at the same position. -/
theorem applyTopToQuery_found (sql : List Char) (m i k e : Nat)
    (hfind : findPat matchTopAt sql = some (i, (k, e))) :
    findPat matchTopAt (applyTopToQuery sql m) =
      some (i, (11 + (natDigits (min e m)).length, min e m)) ∧
    applyTopToQuery sql m = sql.take i ++
      (['S', 'E', 'L', 'E', 'C', 'T', ' ', 'T', 'O', 'P', ' '] ++ natDigits (min e m)) ++
        sql.drop (i + k) := by
  have hi : i < sql.length := findFrom_found_lt matchTopAt sql none i (k, e) hfind
  have hPlen : (sql.take i).length = i := by
    simp only [List.length_take]
    omega
  have hsplit : sql.take i ++ sql.drop i = sql := List.take_append_drop i sql
  have hfind' : findFrom matchTopAt none (sql.take i ++ sql.drop i) =
      some ((sql.take i).length, (k, e)) := by
    rw [hsplit, hPlen]
    exact hfind
  have hscan := scanNone_of_found matchTopAt (sql.take i) none (sql.drop i) (k, e) hfind'
  obtain ⟨hbound, hmatch⟩ :=
    findFrom_found_at matchTopAt (sql.take i) none (sql.drop i) (k, e) hfind'
  obtain ⟨w6, sp1, w3, sp2, ds, rest, hE, hw6, hciw6, hsp1ne, hsp1a, hw3, hciw3,
    hsp2ne, hsp2a, hdsne, hds1, hrest, hk, hv⟩ :=
    matchTopAt_some (sql.drop i) k e hmatch
  have hdropk : sql.drop (i + k) = rest := by
    rw [← List.drop_drop k i sql, hE]
    have hkM : k = (w6 ++ sp1 ++ w3 ++ sp2 ++ ds).length := by
      simp only [List.length_append]
      omega
    rw [hkM]
    exact List.drop_left _ _
  have hex : extractTopValue sql = some e := by
    unfold extractTopValue
    rw [hfind]
    rfl
  have happ : applyTopToQuery sql m =
      sql.take i ++ (['S', 'E', 'L', 'E', 'C', 'T', ' ', 'T', 'O', 'P', ' '] ++
        natDigits (min e m)) ++ sql.drop (i + k) := by
    unfold applyTopToQuery
    rw [hex]
    show replaceTop sql (['S', 'E', 'L', 'E', 'C', 'T', ' ', 'T', 'O', 'P', ' '] ++
      natDigits (min e m)) = _
    unfold replaceTop
    rw [hfind]
  have h4R1 : ∀ c, (sql.drop i).head? = some c → Char.isDigit c = false := by
    intro c hc
    rw [hE] at hc
    cases w6 with
    | nil => simp at hw6
    | cons w0 wt =>
      simp only [List.cons_append, List.head?_cons, Option.some.injEq] at hc
      subst hc
      simp only [ciStarts, Bool.and_eq_true, decide_eq_true_eq] at hciw6
      exact isDigit_false_of_toLower _ 's' hciw6.1 (by decide)
  have hscan2 : scanNone matchTopAt none (sql.take i)
      (['S', 'E', 'L', 'E', 'C', 'T', ' ', 'T', 'O', 'P', ' '] ++ natDigits (min e m) ++
        rest) := by
    refine scanNone_transfer_top none (sql.take i) (sql.drop i) _ ?_ ?_ ?_ h4R1 hscan
    · intro c hc
      simp only [List.cons_append, List.head?_cons, Option.some.injEq] at hc
      subst hc
      refine ⟨by decide, by decide, by decide, by decide, by decide, by decide⟩
    · intro c hc
      simp only [List.cons_append, List.head?_cons, Option.some.injEq] at hc
      subst hc
      decide
    · intro c hc
      have hdw : (['S', 'E', 'L', 'E', 'C', 'T', ' ', 'T', 'O', 'P', ' '] ++
          natDigits (min e m) ++ rest).dropWhile jsSpace =
          'S' :: (['E', 'L', 'E', 'C', 'T', ' ', 'T', 'O', 'P', ' '] ++
            natDigits (min e m) ++ rest) := by
        show ('S' :: (['E', 'L', 'E', 'C', 'T', ' ', 'T', 'O', 'P', ' '] ++
            natDigits (min e m) ++ rest)).dropWhile jsSpace = _
        rw [List.dropWhile_cons_of_neg (by decide)]
      rw [hdw] at hc
      simp only [List.head?_cons, Option.some.injEq] at hc
      subst hc
      exact ⟨by decide, by decide⟩
  have hfreshmatch := matchTopAt_SELECTTOP (min e m) rest hrest
  have hfp2 : findPat matchTopAt
      (sql.take i ++ (['S', 'E', 'L', 'E', 'C', 'T', ' ', 'T', 'O', 'P', ' '] ++
        natDigits (min e m) ++ rest)) =
      some ((sql.take i).length, (11 + (natDigits (min e m)).length, min e m)) :=
    findPat_decomp matchTopAt (sql.take i) 'S'
      (['E', 'L', 'E', 'C', 'T', ' ', 'T', 'O', 'P', ' '] ++ natDigits (min e m) ++ rest)
      (11 + (natDigits (min e m)).length, min e m) hscan2 hbound hfreshmatch
  refine ⟨?_, happ⟩
  rw [happ, hdropk]
  have hassoc : sql.take i ++ (['S', 'E', 'L', 'E', 'C', 'T', ' ', 'T', 'O', 'P', ' '] ++
      natDigits (min e m)) ++ rest =
      sql.take i ++ (['S', 'E', 'L', 'E', 'C', 'T', ' ', 'T', 'O', 'P', ' '] ++
        natDigits (min e m) ++ rest) := by
    simp [List.append_assoc]
  rw [hassoc, hfp2, hPlen]

/-- A second SQL Server rewrite with a same-or-larger cap rewrites the
fresh `SELECT TOP` clause with itself. -/
theorem applyTop_idem_step (s1 P Q : List Char) (cv m' : Nat) (hcv : cv ≤ m')
    (hs1 : s1 = P ++ (['S', 'E', 'L', 'E', 'C', 'T', ' ', 'T', 'O', 'P', ' '] ++
      natDigits cv) ++ Q)
    (hfind : findPat matchTopAt s1 = some (P.length, (11 + (natDigits cv).length, cv))) :
    applyTopToQuery s1 m' = s1 := by
  have hex : extractTopValue s1 = some cv := by
    unfold extractTopValue
    rw [hfind]
    rfl
  unfold applyTopToQuery
  rw [hex]
  show replaceTop s1 (['S', 'E', 'L', 'E', 'C', 'T', ' ', 'T', 'O', 'P', ' '] ++
    natDigits (min cv m')) = s1
  rw [Nat.min_eq_left hcv]
  unfold replaceTop
  rw [hfind]
  show s1.take P.length ++ (['S', 'E', 'L', 'E', 'C', 'T', ' ', 'T', 'O', 'P', ' '] ++
      natDigits cv) ++ s1.drop (P.length + (11 + (natDigits cv).length)) = s1
  have hlen : (11 + (natDigits cv).length : Nat) =
      (['S', 'E', 'L', 'E', 'C', 'T', ' ', 'T', 'O', 'P', ' '] ++ natDigits cv).length := by
    simp
    omega
  rw [hlen, hs1, take_mid, drop_mid]

/-- SQL Server rewriting of a query with no TOP cap: either there is no
`select` whitespace match and the query is returned unchanged, or
`TOP m` is inserted after the first `select` and the first TOP match of
the result is that insertion. -/
theorem applyTopToQuery_none_shape (sql : List Char) (m : Nat)
    (hnone : findPat matchTopAt sql = none) :
    (findPat matchSelAt sql = none ∧ applyTopToQuery sql m = sql) ∨
    ∃ P Q, applyTopToQuery sql m =
        P ++ (['S', 'E', 'L', 'E', 'C', 'T', ' ', 'T', 'O', 'P', ' '] ++ natDigits m) ++
          ([' '] ++ Q) ∧
      findPat matchTopAt (applyTopToQuery sql m) =
        some (P.length, (11 + (natDigits m).length, m)) := by
  have hex : extractTopValue sql = none := by
    unfold extractTopValue
    rw [hnone]
    rfl
  cases hsel : findPat matchSelAt sql with
  | none =>
    refine Or.inl ⟨rfl, ?_⟩
    unfold applyTopToQuery
    rw [hex]
    show replaceSel sql (['S', 'E', 'L', 'E', 'C', 'T', ' ', 'T', 'O', 'P', ' '] ++
      natDigits m ++ [' ']) = sql
    unfold replaceSel
    rw [hsel]
  | some p =>
    right
    obtain ⟨i, k⟩ := p
    have hi : i < sql.length := findFrom_found_lt matchSelAt sql none i k hsel
    have hPlen : (sql.take i).length = i := by
      simp only [List.length_take]
      omega
    have hsplit : sql.take i ++ sql.drop i = sql := List.take_append_drop i sql
    have hfind' : findFrom matchSelAt none (sql.take i ++ sql.drop i) =
        some ((sql.take i).length, k) := by
      rw [hsplit, hPlen]
      exact hsel
    obtain ⟨hbound, hmatch⟩ :=
      findFrom_found_at matchSelAt (sql.take i) none (sql.drop i) k hfind'
    obtain ⟨w, sp, rest, hE, hw6, hciw, hspne, hsp1, hrestsp, hk⟩ :=
      matchSelAt_some (sql.drop i) k hmatch
    have hdropk : sql.drop (i + k) = rest := by
      rw [← List.drop_drop k i sql, hE]
      have hkM : k = (w ++ sp).length := by
        simp only [List.length_append]
        omega
      rw [hkM]
      exact List.drop_left _ _
    have hnone2 : findFrom matchTopAt none (sql.take i ++ sql.drop i) = none := by
      rw [hsplit]
      exact hnone
    have hscanT := scanNone_of_none matchTopAt (sql.take i) none (sql.drop i) hnone2
    have h4R1 : ∀ c, (sql.drop i).head? = some c → Char.isDigit c = false := by
      intro c hc
      rw [hE] at hc
      cases w with
      | nil => simp at hw6
      | cons w0 wt =>
        simp only [List.cons_append, List.head?_cons, Option.some.injEq] at hc
        subst hc
        simp only [ciStarts, Bool.and_eq_true, decide_eq_true_eq] at hciw
        exact isDigit_false_of_toLower _ 's' hciw.1 (by decide)
    have hscan2 : scanNone matchTopAt none (sql.take i)
        (['S', 'E', 'L', 'E', 'C', 'T', ' ', 'T', 'O', 'P', ' '] ++ natDigits m ++
          ([' '] ++ rest)) := by
      refine scanNone_transfer_top none (sql.take i) (sql.drop i) _ ?_ ?_ ?_ h4R1 hscanT
      · intro c hc
        simp only [List.cons_append, List.head?_cons, Option.some.injEq] at hc
        subst hc
        refine ⟨by decide, by decide, by decide, by decide, by decide, by decide⟩
      · intro c hc
        simp only [List.cons_append, List.head?_cons, Option.some.injEq] at hc
        subst hc
        decide
      · intro c hc
        have hdw : (['S', 'E', 'L', 'E', 'C', 'T', ' ', 'T', 'O', 'P', ' '] ++
            natDigits m ++ ([' '] ++ rest)).dropWhile jsSpace =
            'S' :: (['E', 'L', 'E', 'C', 'T', ' ', 'T', 'O', 'P', ' '] ++
              natDigits m ++ ([' '] ++ rest)) := by
          show ('S' :: (['E', 'L', 'E', 'C', 'T', ' ', 'T', 'O', 'P', ' '] ++
              natDigits m ++ ([' '] ++ rest))).dropWhile jsSpace = _
          rw [List.dropWhile_cons_of_neg (by decide)]
        rw [hdw] at hc
        simp only [List.head?_cons, Option.some.injEq] at hc
        subst hc
        exact ⟨by decide, by decide⟩
    have hfreshmatch := matchTopAt_SELECTTOP m ([' '] ++ rest)
      (by intro ch hch; simp at hch; subst hch; decide)
    have hfp2 : findPat matchTopAt
        (sql.take i ++ (['S', 'E', 'L', 'E', 'C', 'T', ' ', 'T', 'O', 'P', ' '] ++
          natDigits m ++ ([' '] ++ rest))) =
        some ((sql.take i).length, (11 + (natDigits m).length, m)) :=
      findPat_decomp matchTopAt (sql.take i) 'S'
        (['E', 'L', 'E', 'C', 'T', ' ', 'T', 'O', 'P', ' '] ++ natDigits m ++ ([' '] ++ rest))
        (11 + (natDigits m).length, m) hscan2 hbound hfreshmatch
    have happ : applyTopToQuery sql m =
        sql.take i ++ (['S', 'E', 'L', 'E', 'C', 'T', ' ', 'T', 'O', 'P', ' '] ++
          natDigits m ++ [' ']) ++ sql.drop (i + k) := by
      unfold applyTopToQuery
      rw [hex]
      show replaceSel sql (['S', 'E', 'L', 'E', 'C', 'T', ' ', 'T', 'O', 'P', ' '] ++
        natDigits m ++ [' ']) = _
      unfold replaceSel
      rw [hsel]
    refine ⟨sql.take i, rest, ?_, ?_⟩
    · rw [happ, hdropk]
      simp [List.append_assoc]
    · have hshape : applyTopToQuery sql m =
          sql.take i ++ (['S', 'E', 'L', 'E', 'C', 'T', ' ', 'T', 'O', 'P', ' '] ++
            natDigits m ++ ([' '] ++ rest)) := by
        rw [happ, hdropk]
        simp [List.append_assoc]
      rw [hshape, hfp2, hPlen]

/-- C4: for every SELECT-shaped statement that already contains a cap of
value `e` (a LIMIT clause for trailing-clause dialects, a leading
`SELECT TOP` clause for SQL Server) and every truthy requested cap `m`,
the rewriter replaces the existing cap in place with `min e m`, so it
never raises a tighter limit already present in the query text. -/
theorem rowcap_replaces_with_min (sql : List Char) (e m : Nat) (hm : 0 < m)
    (hsel : isSelectQuery sql = true) :
    (extractLimitValue sql = some e →
      extractLimitValue (applyMaxRows sql (some m)) = some (min e m) ∧ min e m ≤ e ∧
      ∃ i k, findPat matchLimitAt sql = some (i, (k, e)) ∧
        applyMaxRows sql (some m) = sql.take i ++
          (['L', 'I', 'M', 'I', 'T', ' '] ++ natDigits (min e m)) ++ sql.drop (i + k)) ∧
    (extractTopValue sql = some e →
      extractTopValue (applyMaxRowsForSQLServer sql (some m)) = some (min e m) ∧
      min e m ≤ e ∧
      ∃ i k, findPat matchTopAt sql = some (i, (k, e)) ∧
        applyMaxRowsForSQLServer sql (some m) = sql.take i ++
          (['S', 'E', 'L', 'E', 'C', 'T', ' ', 'T', 'O', 'P', ' '] ++
            natDigits (min e m)) ++ sql.drop (i + k)) := by
  have hguardL : applyMaxRows sql (some m) = applyLimitToQuery sql m := by
    unfold applyMaxRows
    rw [isFalsyNat_pos m hm, hsel]
    simp
  have hguardT : applyMaxRowsForSQLServer sql (some m) = applyTopToQuery sql m := by
    unfold applyMaxRowsForSQLServer
    rw [isFalsyNat_pos m hm, hsel]
    simp
  constructor
  · intro hexL
    unfold extractLimitValue at hexL
    obtain ⟨p, hp, hpe⟩ := Option.map_eq_some'.1 hexL
    obtain ⟨i, kv⟩ := p
    obtain ⟨k, v⟩ := kv
    simp only at hpe
    subst hpe
    obtain ⟨hfind1, hshape⟩ := applyLimitToQuery_found sql m i k v hp
    refine ⟨?_, Nat.min_le_left v m, i, k, hp, ?_⟩
    · rw [hguardL]
      unfold extractLimitValue
      rw [hfind1]
      rfl
    · rw [hguardL]
      exact hshape
  · intro hexT
    unfold extractTopValue at hexT
    obtain ⟨p, hp, hpe⟩ := Option.map_eq_some'.1 hexT
    obtain ⟨i, kv⟩ := p
    obtain ⟨k, v⟩ := kv
    simp only at hpe
    subst hpe
    obtain ⟨hfind1, hshape⟩ := applyTopToQuery_found sql m i k v hp
    refine ⟨?_, Nat.min_le_left v m, i, k, hp, ?_⟩
    · rw [hguardT]
      unfold extractTopValue
      rw [hfind1]
      rfl
    · rw [hguardT]
      exact hshape

/-- Witness for the C4 theorem on concrete queries: capping
`select x limit 20` (resp. `select top 20 x`) at 5 rewrites the cap to
5. -/
theorem rowcap_replaces_with_min_witness :
    extractLimitValue (applyMaxRows
      ['s', 'e', 'l', 'e', 'c', 't', ' ', 'x', ' ', 'l', 'i', 'm', 'i', 't', ' ', '2', '0']
      (some 5)) = some 5 ∧
    extractTopValue (applyMaxRowsForSQLServer
      ['s', 'e', 'l', 'e', 'c', 't', ' ', 't', 'o', 'p', ' ', '2', '0', ' ', 'x']
      (some 5)) = some 5 := by
  constructor
  · have h := (rowcap_replaces_with_min
      ['s', 'e', 'l', 'e', 'c', 't', ' ', 'x', ' ', 'l', 'i', 'm', 'i', 't', ' ', '2', '0']
      20 5 (by decide) (by decide)).1 (by decide)
    simpa using h.1
  · have h := (rowcap_replaces_with_min
      ['s', 'e', 'l', 'e', 'c', 't', ' ', 't', 'o', 'p', ' ', '2', '0', ' ', 'x']
      20 5 (by decide) (by decide)).2 (by decide)
    simpa using h.1

/-- C5: row-cap rewriting is idempotent under a same-or-larger cap: if
every cap present in the once-rewritten query is at most `m'`, applying
the rewriter again with `m'` leaves the once-rewritten query textually
unchanged, for both the LIMIT and the TOP strategy. -/
theorem rowcap_idempotent (sql : List Char) (m m' : Nat) (hm : 0 < m) (hm' : 0 < m')
    (hcapL : ∀ c, extractLimitValue (applyMaxRows sql (some m)) = some c → c ≤ m')
    (hcapT : ∀ c, extractTopValue (applyMaxRowsForSQLServer sql (some m)) = some c → c ≤ m') :
    applyMaxRows (applyMaxRows sql (some m)) (some m') = applyMaxRows sql (some m) ∧
    applyMaxRowsForSQLServer (applyMaxRowsForSQLServer sql (some m)) (some m') =
      applyMaxRowsForSQLServer sql (some m) := by
  constructor
  · by_cases hsel : isSelectQuery sql = true
    · have hguardL : applyMaxRows sql (some m) = applyLimitToQuery sql m := by
        unfold applyMaxRows
        rw [isFalsyNat_pos m hm, hsel]
        simp
      rw [hguardL] at hcapL ⊢
      by_cases hsel1 : isSelectQuery (applyLimitToQuery sql m) = true
      · have hguard2 : applyMaxRows (applyLimitToQuery sql m) (some m') =
            applyLimitToQuery (applyLimitToQuery sql m) m' := by
          unfold applyMaxRows
          rw [isFalsyNat_pos m' hm', hsel1]
          simp
        rw [hguard2]
        cases hfp : findPat matchLimitAt sql with
        | some p =>
          obtain ⟨i, kv⟩ := p
          obtain ⟨k, e⟩ := kv
          obtain ⟨hfind1, hshape⟩ := applyLimitToQuery_found sql m i k e hfp
          have hcv : min e m ≤ m' := by
            refine hcapL (min e m) ?_
            unfold extractLimitValue
            rw [hfind1]
            rfl
          have hi : i < sql.length := findFrom_found_lt matchLimitAt sql none i (k, e) hfp
          have hPlen : (sql.take i).length = i := by
            simp only [List.length_take]
            omega
          refine applyLimit_idem_step (applyLimitToQuery sql m) (sql.take i)
            (sql.drop (i + k)) (min e m) m' hcv hshape ?_
          rw [hfind1, hPlen]
        | none =>
          obtain ⟨P, semi, hsem, hshape, hfind1⟩ := applyLimitToQuery_none_shape sql m hfp
          have hcv : m ≤ m' := by
            refine hcapL m ?_
            unfold extractLimitValue
            rw [hfind1]
            rfl
          exact applyLimit_idem_step (applyLimitToQuery sql m) (P ++ [' ']) semi m m' hcv
            hshape hfind1
      · have hsel1f : isSelectQuery (applyLimitToQuery sql m) = false := by
          cases hb : isSelectQuery (applyLimitToQuery sql m) with
          | false => rfl
          | true => exact absurd hb hsel1
        unfold applyMaxRows
        rw [isFalsyNat_pos m' hm', hsel1f]
        simp
    · have hself : isSelectQuery sql = false := by
        cases hb : isSelectQuery sql with
        | false => rfl
        | true => exact absurd hb hsel
      have hid : applyMaxRows sql (some m) = sql := by
        unfold applyMaxRows
        rw [isFalsyNat_pos m hm, hself]
        simp
      rw [hid]
      unfold applyMaxRows
      rw [isFalsyNat_pos m' hm', hself]
      simp
  · by_cases hsel : isSelectQuery sql = true
    · have hguardT : applyMaxRowsForSQLServer sql (some m) = applyTopToQuery sql m := by
        unfold applyMaxRowsForSQLServer
        rw [isFalsyNat_pos m hm, hsel]
        simp
      rw [hguardT] at hcapT ⊢
      by_cases hsel1 : isSelectQuery (applyTopToQuery sql m) = true
      · have hguard2 : applyMaxRowsForSQLServer (applyTopToQuery sql m) (some m') =
            applyTopToQuery (applyTopToQuery sql m) m' := by
          unfold applyMaxRowsForSQLServer
          rw [isFalsyNat_pos m' hm', hsel1]
          simp
        rw [hguard2]
        cases hfp : findPat matchTopAt sql with
        | some p =>
          obtain ⟨i, kv⟩ := p
          obtain ⟨k, e⟩ := kv
          obtain ⟨hfind1, hshape⟩ := applyTopToQuery_found sql m i k e hfp
          have hcv : min e m ≤ m' := by
            refine hcapT (min e m) ?_
            unfold extractTopValue
            rw [hfind1]
            rfl
          have hi : i < sql.length := findFrom_found_lt matchTopAt sql none i (k, e) hfp
          have hPlen : (sql.take i).length = i := by
            simp only [List.length_take]
            omega
          refine applyTop_idem_step (applyTopToQuery sql m) (sql.take i)
            (sql.drop (i + k)) (min e m) m' hcv hshape ?_
          rw [hfind1, hPlen]
        | none =>
          rcases applyTopToQuery_none_shape sql m hfp with ⟨hselnone, hidq⟩ | ⟨P, Q, hshape, hfind1⟩
          · have hex2 : extractTopValue sql = none := by
              unfold extractTopValue
              rw [hfp]
              rfl
            have hid2 : applyTopToQuery sql m' = sql := by
              unfold applyTopToQuery
              rw [hex2]
              show replaceSel sql (['S', 'E', 'L', 'E', 'C', 'T', ' ', 'T', 'O', 'P', ' '] ++
                natDigits m' ++ [' ']) = sql
              unfold replaceSel
              rw [hselnone]
            rw [hidq, hid2]
          · have hcv : m ≤ m' := by
              refine hcapT m ?_
              unfold extractTopValue
              rw [hfind1]
              rfl
            exact applyTop_idem_step (applyTopToQuery sql m) P ([' '] ++ Q) m m' hcv
              hshape hfind1
      · have hsel1f : isSelectQuery (applyTopToQuery sql m) = false := by
          cases hb : isSelectQuery (applyTopToQuery sql m) with
          | false => rfl
          | true => exact absurd hb hsel1
        unfold applyMaxRowsForSQLServer
        rw [isFalsyNat_pos m' hm', hsel1f]
        simp
    · have hself : isSelectQuery sql = false := by
        cases hb : isSelectQuery sql with
        | false => rfl
        | true => exact absurd hb hsel
      have hid : applyMaxRowsForSQLServer sql (some m) = sql := by
        unfold applyMaxRowsForSQLServer
        rw [isFalsyNat_pos m hm, hself]
        simp
      rw [hid]
      unfold applyMaxRowsForSQLServer
      rw [isFalsyNat_pos m' hm', hself]
      simp

/-- Witness for the C5 theorem: re-capping the once-rewritten
`select x limit 20` at a larger cap changes nothing, for both
strategies. -/
theorem rowcap_idempotent_witness :
    applyMaxRows (applyMaxRows
      ['s', 'e', 'l', 'e', 'c', 't', ' ', 'x', ' ', 'l', 'i', 'm', 'i', 't', ' ', '2', '0']
      (some 5)) (some 7) =
    applyMaxRows
      ['s', 'e', 'l', 'e', 'c', 't', ' ', 'x', ' ', 'l', 'i', 'm', 'i', 't', ' ', '2', '0']
      (some 5) ∧
    applyMaxRowsForSQLServer (applyMaxRowsForSQLServer
      ['s', 'e', 'l', 'e', 'c', 't', ' ', 'x', ' ', 'l', 'i', 'm', 'i', 't', ' ', '2', '0']
      (some 5)) (some 7) =
    applyMaxRowsForSQLServer
      ['s', 'e', 'l', 'e', 'c', 't', ' ', 'x', ' ', 'l', 'i', 'm', 'i', 't', ' ', '2', '0']
      (some 5) := by
  refine rowcap_idempotent
    ['s', 'e', 'l', 'e', 'c', 't', ' ', 'x', ' ', 'l', 'i', 'm', 'i', 't', ' ', '2', '0']
    5 7 (by decide) (by decide) ?_ ?_
  · intro c hc
    have he : extractLimitValue (applyMaxRows
        ['s', 'e', 'l', 'e', 'c', 't', ' ', 'x', ' ', 'l', 'i', 'm', 'i', 't', ' ', '2', '0']
        (some 5)) = some 5 := by decide
    rw [he] at hc
    injection hc with h
    omega
  · intro c hc
    have he : extractTopValue (applyMaxRowsForSQLServer
        ['s', 'e', 'l', 'e', 'c', 't', ' ', 'x', ' ', 'l', 'i', 'm', 'i', 't', ' ', '2', '0']
        (some 5)) = some 5 := by decide
    rw [he] at hc
    injection hc with h
    omega
